import Mathlib

/-!
Verification development for the zapry agents/bot SDK.

Shallow embedding of the subsystems under test:
* multi-agent handoff engine (`zapry_agents_sdk/agent/{policy,engine,handoff}.py`)
* ReAct agent loop (`zapry_bot_sdk/agent/loop.py`)
* long-term memory deep merge (`zapry_agents_sdk/memory/long_term.py`)
* guardrail manager (`zapry_agents_sdk/guardrails/engine.py`)
* MCP tool conversion (`zapry_agents_sdk/mcp/{config,converter,protocol}.py`)
* proactive scheduler (`zapry_bot_sdk/proactive/scheduler.py`)

Python `async` functions are embedded as pure functions (cooperative
single-event-loop semantics); functions that may raise are embedded with
`Except`; wall-clock time is threaded explicitly as a parameter.
-/

namespace Handoff

/-- Error codes of `HandoffError.code` (`handoff.py`). -/
inductive ErrCode where
  | NOT_FOUND
  | NOT_ALLOWED
  | SAFETY_BLOCK
  | TIMEOUT
  | LOOP_DETECTED
  | TOOL_ERROR
  | MODEL_ERROR
  | RATE_LIMITED
deriving DecidableEq, Repr

/-- Lower-case rendering of an error code, mirroring Python `code.lower()`. -/
def ErrCode.lower : ErrCode → String
  | .NOT_FOUND => "not_found"
  | .NOT_ALLOWED => "not_allowed"
  | .SAFETY_BLOCK => "safety_block"
  | .TIMEOUT => "timeout"
  | .LOOP_DETECTED => "loop_detected"
  | .TOOL_ERROR => "tool_error"
  | .MODEL_ERROR => "model_error"
  | .RATE_LIMITED => "rate_limited"

/-- `HandoffError` dataclass (`handoff.py`). -/
structure HandoffError where
  code : ErrCode
  message : String
  retryable : Bool := false
deriving DecidableEq, Repr

/-- Usage statistics attached to a successful handoff
(`engine.py`, `_run_agent` return value). -/
structure Usage where
  total_turns : Nat
  tool_calls : Nat
deriving DecidableEq, Repr

/-- `HandoffResult` dataclass (`handoff.py`); the fields the engine writes.
`duration_ms` (wall clock) is not modelled. -/
structure HandoffResult where
  output : String := ""
  agent_id : String := ""
  should_return : Bool := true
  status : String := "success"
  error : Option HandoffError := none
  usage : Option Usage := none
  request_id : String := ""
  cache_hit : Bool := false
deriving DecidableEq, Repr

/-- `HandoffRequest` dataclass (`handoff.py`); `context`, `trace_id` and
`original_tool_call_id` do not influence the embedded pipeline and the
agent execution itself is abstracted, so they are omitted. -/
structure HandoffRequest where
  from_agent : String := ""
  to_agent : String := ""
  reason : String := ""
  requested_mode : String := "auto"
  request_id : String := ""
  deadline_ms : Int := 30000
  hop_count : Int := 0
  visited_agents : List String := []
  caller_owner_id : String := ""
  caller_org_id : String := ""
deriving DecidableEq, Repr

/-- `AgentCardPublic` dataclass (`card.py`); governance fields only. -/
structure AgentCardPublic where
  agent_id : String
  owner_id : String := ""
  org_id : String := ""
  visibility : String := "private"
  allowed_caller_agents : List String := []
  allowed_caller_owners : List String := []
  safety_level : String := "medium"
  handoff_policy : String := "auto"
deriving DecidableEq, Repr

/-- `HandoffPolicy` dataclass (`policy.py`). -/
structure HandoffPolicy where
  max_hop_count : Int := 3
  default_timeout_ms : Int := 30000
  allow_cross_owner : Bool := false
deriving DecidableEq, Repr

/-- `HandoffPolicy.check_access` (`policy.py`): the seven-step access
pipeline; `none` means the request passes. -/
def HandoffPolicy.check_access (self : HandoffPolicy) (request : HandoffRequest)
    (target : AgentCardPublic) : Option HandoffError :=
  if target.handoff_policy = "deny" then
    some ⟨.NOT_ALLOWED, "Agent " ++ target.agent_id ++ " denies handoff", false⟩
  else if target.safety_level = "high" ∧ request.requested_mode = "tool_based" then
    some ⟨.SAFETY_BLOCK,
      "Agent " ++ target.agent_id ++ " (safety=high) requires coordinator mode", false⟩
  else if target.handoff_policy = "coordinator_only" ∧ request.requested_mode = "tool_based" then
    some ⟨.NOT_ALLOWED, "Agent " ++ target.agent_id ++ " only accepts coordinator handoff", false⟩
  else if target.visibility = "private" ∧ request.caller_owner_id ≠ target.owner_id then
    some ⟨.NOT_ALLOWED, "Private agent: owner mismatch", false⟩
  else if target.visibility = "org" ∧ (target.org_id = "" ∨ request.caller_org_id ≠ target.org_id) then
    some ⟨.NOT_ALLOWED, "Org agent: org_id mismatch", false⟩
  else if ¬ target.allowed_caller_agents.isEmpty ∧
      request.from_agent ∉ target.allowed_caller_agents then
    some ⟨.NOT_ALLOWED, "Caller agent not in whitelist", false⟩
  else if ¬ target.allowed_caller_owners.isEmpty ∧
      request.caller_owner_id ∉ target.allowed_caller_owners then
    some ⟨.NOT_ALLOWED, "Caller owner not in whitelist", false⟩
  else if ¬ self.allow_cross_owner ∧ request.caller_owner_id ≠ "" ∧ target.owner_id ≠ "" ∧
      request.caller_owner_id ≠ target.owner_id then
    some ⟨.NOT_ALLOWED, "Cross-owner handoff disabled", false⟩
  else
    none

/-- `HandoffPolicy.check_loop` (`policy.py`): next-hop loop guard. -/
def HandoffPolicy.check_loop (self : HandoffPolicy) (request : HandoffRequest) :
    Option HandoffError :=
  let next_hop := request.hop_count + 1
  if next_hop > self.max_hop_count then
    some ⟨.LOOP_DETECTED,
      "Max hop count exceeded: " ++ toString next_hop ++ " > " ++ toString self.max_hop_count,
      false⟩
  else if request.to_agent ∈ request.visited_agents then
    some ⟨.LOOP_DETECTED,
      "Agent " ++ request.to_agent ++ " already visited", false⟩
  else
    none

/-- Outcome of running the target agent's loop under the deadline
(engine step 6/7): normal completion, `asyncio.TimeoutError`, or any
other exception (message text). Abstracts `HandoffEngine._run_agent`,
including the context filters it is fed from. -/
inductive RunOutcome where
  | ok (output : String) (total_turns : Nat) (tool_calls : Nat)
  | timeout
  | exn (msg : String)
deriving DecidableEq, Repr

/-- Modelled from the spec: `AgentRegistry` (`zapry_agents_sdk/agent/registry.py`
is absent from the sources; spec section 4.9 states "Registry holds
agent_id → AgentRuntime"), embedded as an association list keyed by
agent id; `get` is first-match lookup. -/
def registryGet (registry : List (String × AgentCardPublic)) (agent_id : String) :
    Option AgentCardPublic :=
  (registry.find? (fun p => p.1 = agent_id)).map (·.2)

/-- `HandoffEngine` configuration (`engine.py`): the registry, the policy,
whether an idempotency cache is attached (and its TTL), and the abstracted
target-agent execution. The tracer only emits a span and never alters the
result, so it is not modelled. -/
structure Engine where
  registry : List (String × AgentCardPublic)
  policy : HandoffPolicy
  hasCache : Bool
  ttl : Nat := 86400
  runAgent : HandoffRequest → RunOutcome

/-- `HandoffEngine._error_result` (`engine.py`): status is the lower-cased
code for `LOOP_DETECTED`/`TIMEOUT` and `"error"` otherwise; `retryable`
is set exactly for `TIMEOUT` and `MODEL_ERROR`. -/
def errorResult (request : HandoffRequest) (code : ErrCode) (message : String) :
    HandoffResult :=
  { agent_id := request.to_agent
    status := if code = .LOOP_DETECTED ∨ code = .TIMEOUT then code.lower else "error"
    error := some ⟨code, message, code = .TIMEOUT ∨ code = .MODEL_ERROR⟩
    request_id := request.request_id }

/-- `HandoffEngine._execute` (`engine.py`): lookup → access check → loop
check → deadline-bounded agent run → result assembly; any exception from
the run is wrapped as `TOOL_ERROR`. The second component records whether
the target agent was executed. -/
def Engine.execute (e : Engine) (request : HandoffRequest) : HandoffResult × Bool :=
  match registryGet e.registry request.to_agent with
  | none => (errorResult request .NOT_FOUND ("Agent not found: " ++ request.to_agent), false)
  | some card =>
    match e.policy.check_access request card with
    | some err => (errorResult request err.code err.message, false)
    | none =>
      match e.policy.check_loop request with
      | some err => (errorResult request err.code err.message, false)
      | none =>
        match e.runAgent request with
        | .timeout =>
          (errorResult request .TIMEOUT
            ("Handoff timed out after " ++ toString request.deadline_ms ++ "ms"), true)
        | .exn m => (errorResult request .TOOL_ERROR m, true)
        | .ok output turns calls =>
          ({ output := output
             agent_id := request.to_agent
             should_return := true
             status := "success"
             usage := some ⟨turns, calls⟩
             request_id := request.request_id }, true)

/-- One entry of `IdempotencyCache._cache` (`policy.py`):
`request_id -> (result, timestamp)`. -/
structure CacheEntry where
  requestId : String
  result : HandoffResult
  ts : Nat
deriving DecidableEq, Repr

/-- State of the idempotency cache: the backing dict as an association
list (unique keys maintained by `setEntry`). -/
structure CacheState where
  entries : List CacheEntry
deriving DecidableEq, Repr

/-- `IdempotencyCache._cleanup` (`policy.py`): drop entries with
`now - ts > ttl` (non-expired entries are kept). -/
def cleanup (ttl now : Nat) (s : CacheState) : CacheState :=
  ⟨s.entries.filter (fun e => ¬ now - e.ts > ttl)⟩

/-- Dict lookup in the cache by request id. -/
def cacheLookup (s : CacheState) (rid : String) : Option HandoffResult :=
  (s.entries.find? (fun e => e.requestId = rid)).map (·.result)

/-- Dict assignment `cache[request_id] = (result, now)`: replace the
existing entry in place or append a new one. -/
def setEntry : List CacheEntry → String → HandoffResult → Nat → List CacheEntry
  | [], rid, r, now => [⟨rid, r, now⟩]
  | e :: rest, rid, r, now =>
    if e.requestId = rid then ⟨rid, r, now⟩ :: rest
    else e :: setEntry rest rid r now

/-- `IdempotencyCache.get_or_execute` (`policy.py`): empty request id
executes without caching; a cache hit returns a shallow copy with
`cache_hit=true`; a miss executes and stores the result (whatever its
status) with the current timestamp. Returns (result, new cache state,
whether the target agent was executed). -/
def get_or_execute (ttl now : Nat) (rid : String) (exec : Unit → HandoffResult × Bool)
    (s : CacheState) : HandoffResult × CacheState × Bool :=
  if rid = "" then
    let (r, ex) := exec ()
    (r, s, ex)
  else
    let s1 := cleanup ttl now s
    match cacheLookup s1 rid with
    | some r => ({ r with cache_hit := true }, s1, false)
    | none =>
      let (r, ex) := exec ()
      (r, ⟨setEntry s1.entries rid r now⟩, ex)

/-- `HandoffEngine.handoff` (`engine.py` step 1): route through the
idempotency cache when one is configured and the request id is set. -/
def Engine.handoff (e : Engine) (now : Nat) (request : HandoffRequest)
    (s : CacheState) : HandoffResult × CacheState × Bool :=
  if e.hasCache ∧ request.request_id ≠ "" then
    get_or_execute e.ttl now request.request_id (fun _ => e.execute request) s
  else
    let (r, ex) := e.execute request
    (r, s, ex)

end Handoff

namespace Handoff

/-- Storing a result always makes it the value found under its request id. -/
theorem setEntry_lookup (l : List CacheEntry) (rid : String) (r : HandoffResult) (now : Nat) :
    (List.find? (fun e => e.requestId = rid) (setEntry l rid r now)).map (·.result) = some r := by
  induction l with
  | nil => simp [setEntry]
  | cons e rest ih =>
    by_cases h : e.requestId = rid
    · simp [setEntry, h]
    · simp [setEntry, h, List.find?_cons, ih]

/-- When no entry holds the request id, storing appends a fresh entry. -/
theorem setEntry_of_miss (l : List CacheEntry) (rid : String) (r : HandoffResult) (now : Nat)
    (h : List.find? (fun e => e.requestId = rid) l = none) :
    setEntry l rid r now = l ++ [⟨rid, r, now⟩] := by
  induction l with
  | nil => simp [setEntry]
  | cons e rest ih =>
    rw [List.find?_cons] at h
    by_cases he : e.requestId = rid
    · simp [he] at h
    · simp [he] at h
      have h2 : List.find? (fun e => e.requestId = rid) rest = none := by
        rw [List.find?_eq_none]
        simpa using h
      simp [setEntry, he, ih h2]

/-- Loop guard: either triggering condition yields a non-retryable
`LOOP_DETECTED` error. -/
theorem check_loop_detects (p : HandoffPolicy) (req : HandoffRequest)
    (h : req.hop_count + 1 > p.max_hop_count ∨ req.to_agent ∈ req.visited_agents) :
    ∃ m, p.check_loop req = some ⟨.LOOP_DETECTED, m, false⟩ := by
  unfold HandoffPolicy.check_loop
  by_cases h1 : req.hop_count + 1 > p.max_hop_count
  · exact ⟨"Max hop count exceeded: " ++ toString (req.hop_count + 1) ++ " > " ++
      toString p.max_hop_count, by simp [h1]⟩
  · rcases h with h | h2
    · exact absurd h h1
    · exact ⟨"Agent " ++ req.to_agent ++ " already visited", by simp [h1, h2]⟩

end Handoff

namespace Handoff

/-- C3 counterexample: an engine-produced `HandoffResult` carrying a
`TOOL_ERROR` has `retryable = false`, refuting the claim that TOOL_ERROR
(and RATE_LIMITED) errors are marked retryable. -/
theorem C3_counterexample :
    ((Engine.execute
        { registry := [("b", { agent_id := "b" })], policy := {}, hasCache := false,
          runAgent := fun _ => RunOutcome.exn "boom" }
        { from_agent := "a", to_agent := "b" }).1).error
      = some ⟨.TOOL_ERROR, "boom", false⟩ := by decide

/-- C3 (amended): every result built by `HandoffEngine._error_result`
carries an error whose `retryable` flag is true exactly when the code is
`TIMEOUT` or `MODEL_ERROR`; it is false for `NOT_FOUND`, `NOT_ALLOWED`,
`SAFETY_BLOCK`, `LOOP_DETECTED`, `TOOL_ERROR` and `RATE_LIMITED`. -/
theorem C3_theorem (request : HandoffRequest) (code : ErrCode) (message : String) :
    ∃ err, (errorResult request code message).error = some err ∧
      (err.retryable = true ↔ code = .TIMEOUT ∨ code = .MODEL_ERROR) := by
  refine ⟨_, rfl, ?_⟩
  cases code <;> simp [errorResult]

/-- C2 counterexample: a request whose next hop exceeds `max_hop_count`
but whose target agent is not registered yields `NOT_FOUND` with status
`"error"`, not `loop_detected` — the registry lookup precedes the loop
check. -/
theorem C2_counterexample :
    (5 : Int) + 1 > (3 : Int) ∧
    ((Engine.handoff
        { registry := [], policy := {}, hasCache := false,
          runAgent := fun _ => RunOutcome.exn "x" }
        0 { to_agent := "x", hop_count := 5 } ⟨[]⟩).1).status = "error" ∧
    ((Engine.handoff
        { registry := [], policy := {}, hasCache := false,
          runAgent := fun _ => RunOutcome.exn "x" }
        0 { to_agent := "x", hop_count := 5 } ⟨[]⟩).1).error
      = some ⟨.NOT_FOUND, "Agent not found: x", false⟩ := by decide

/-- C2 (amended): when the target agent is registered and the access
check passes, a request with `hop_count + 1 > max_hop_count` or
`to_agent ∈ visited_agents` makes the execution pipeline return status
`loop_detected` with a non-retryable `LOOP_DETECTED` error, without
executing the target agent. -/
theorem C2_theorem (e : Engine) (req : HandoffRequest) (card : AgentCardPublic)
    (hfound : registryGet e.registry req.to_agent = some card)
    (haccess : e.policy.check_access req card = none)
    (hloop : req.hop_count + 1 > e.policy.max_hop_count ∨ req.to_agent ∈ req.visited_agents) :
    (e.execute req).1.status = "loop_detected" ∧
    (∃ m, (e.execute req).1.error = some ⟨.LOOP_DETECTED, m, false⟩) ∧
    (e.execute req).2 = false := by
  obtain ⟨m, hm⟩ := check_loop_detects e.policy req hloop
  simp only [Engine.execute, hfound, haccess, hm]
  refine ⟨?_, ⟨m, ?_⟩, ?_⟩ <;> simp [errorResult, ErrCode.lower]

/-- C2 witness: concrete loop-detected handoff (target already visited). -/
theorem C2_witness :
    (Engine.execute
        { registry := [("b", { agent_id := "b" })], policy := {}, hasCache := false,
          runAgent := fun _ => RunOutcome.ok "out" 1 0 }
        { from_agent := "a", to_agent := "b", visited_agents := ["b"] }).1.status
      = "loop_detected" ∧
    (∃ m, (Engine.execute
        { registry := [("b", { agent_id := "b" })], policy := {}, hasCache := false,
          runAgent := fun _ => RunOutcome.ok "out" 1 0 }
        { from_agent := "a", to_agent := "b", visited_agents := ["b"] }).1.error
      = some ⟨.LOOP_DETECTED, m, false⟩) ∧
    (Engine.execute
        { registry := [("b", { agent_id := "b" })], policy := {}, hasCache := false,
          runAgent := fun _ => RunOutcome.ok "out" 1 0 }
        { from_agent := "a", to_agent := "b", visited_agents := ["b"] }).2 = false :=
  C2_theorem
    { registry := [("b", { agent_id := "b" })], policy := {}, hasCache := false,
      runAgent := fun _ => RunOutcome.ok "out" 1 0 }
    { from_agent := "a", to_agent := "b", visited_agents := ["b"] }
    { agent_id := "b" }
    (by decide) (by decide) (by decide)

end Handoff

namespace Handoff

/-- C1 counterexample: a failed handoff (unknown target, status `"error"`)
is nevertheless stored in the idempotency cache under its request id,
refuting "stored only when the handoff succeeds". -/
theorem C1_counterexample :
    ((Engine.handoff
        { registry := [], policy := {}, hasCache := true,
          runAgent := fun _ => RunOutcome.exn "x" }
        0 { to_agent := "x", request_id := "r1" } ⟨[]⟩).1).status = "error" ∧
    cacheLookup
        (Engine.handoff
          { registry := [], policy := {}, hasCache := true,
            runAgent := fun _ => RunOutcome.exn "x" }
          0 { to_agent := "x", request_id := "r1" } ⟨[]⟩).2.1 "r1"
      = some ((Engine.handoff
          { registry := [], policy := {}, hasCache := true,
            runAgent := fun _ => RunOutcome.exn "x" }
          0 { to_agent := "x", request_id := "r1" } ⟨[]⟩).1) := by decide

/-- Lookup after cleanup still finds a freshly stored unexpired entry
appended behind entries that do not hold its request id. -/
theorem cacheLookup_cleanup_store (l : List CacheEntry) (rid : String) (r : HandoffResult)
    (ts ttl now : Nat)
    (hl : List.find? (fun en => en.requestId = rid) l = none)
    (hkeep : ¬ now - ts > ttl) :
    cacheLookup (cleanup ttl now ⟨l ++ [⟨rid, r, ts⟩]⟩) rid = some r := by
  have h1 : List.find? (fun a : CacheEntry =>
      decide ((decide ¬ now - a.ts > ttl) = true ∧ (decide (a.requestId = rid)) = true)) l
      = none := by
    rw [List.find?_eq_none] at hl ⊢
    intro x hx
    have h2 := hl x hx
    simp only [decide_eq_true_eq, not_and]
    intro _
    simpa using h2
  simp only [cacheLookup, cleanup, List.filter_append, List.find?_append, List.find?_filter]
  rw [h1]
  simp [hkeep]
  omega

/-- C1 (amended): with an idempotency cache and a non-empty request id
that misses the cache, the handoff stores its result under the request
id regardless of the result's status; a second handoff with the same
request id within the TTL returns a copy of that result with
`cache_hit = true` and does not execute the target agent. -/
theorem C1_theorem (e : Engine) (req : HandoffRequest) (s : CacheState) (now1 now2 : Nat)
    (hc : e.hasCache = true) (hrid : req.request_id ≠ "")
    (hmiss : cacheLookup (cleanup e.ttl now1 s) req.request_id = none)
    (httl : now2 - now1 ≤ e.ttl) :
    (e.handoff now1 req s).1 = (e.execute req).1 ∧
    cacheLookup (e.handoff now1 req s).2.1 req.request_id = some (e.handoff now1 req s).1 ∧
    (e.handoff now2 req (e.handoff now1 req s).2.1).1
      = { (e.handoff now1 req s).1 with cache_hit := true } ∧
    (e.handoff now2 req (e.handoff now1 req s).2.1).2.2 = false := by
  have hcond : e.hasCache = true ∧ req.request_id ≠ "" := ⟨hc, hrid⟩
  have hfind : List.find? (fun en => en.requestId = req.request_id)
      (cleanup e.ttl now1 s).entries = none := by
    simpa [cacheLookup] using hmiss
  have h1 : e.handoff now1 req s
      = ((e.execute req).1,
         ⟨(cleanup e.ttl now1 s).entries ++ [⟨req.request_id, (e.execute req).1, now1⟩]⟩,
         (e.execute req).2) := by
    rcases hE : e.execute req with ⟨r1, ex1⟩
    rw [Engine.handoff, if_pos hcond, get_or_execute, if_neg hrid]
    simp only [hmiss, hE]
    rw [setEntry_of_miss _ _ _ _ hfind]
  have hlook2 : cacheLookup
      (cleanup e.ttl now2
        ⟨(cleanup e.ttl now1 s).entries ++ [⟨req.request_id, (e.execute req).1, now1⟩]⟩)
      req.request_id = some (e.execute req).1 :=
    cacheLookup_cleanup_store _ _ _ _ _ _ hfind (by omega)
  refine ⟨by rw [h1], ?_, ?_, ?_⟩
  · rw [h1]
    have h2 := setEntry_lookup (cleanup e.ttl now1 s).entries req.request_id
      (e.execute req).1 now1
    rw [setEntry_of_miss _ _ _ _ hfind] at h2
    simpa [cacheLookup] using h2
  · rw [h1, Engine.handoff, if_pos hcond, get_or_execute, if_neg hrid]
    simp only [hlook2]
  · rw [h1, Engine.handoff, if_pos hcond, get_or_execute, if_neg hrid]
    simp only [hlook2]

/-- C1 witness: concrete two-call idempotent handoff. -/
theorem C1_witness :
    (Engine.handoff
        { registry := [("b", { agent_id := "b" })], policy := {}, hasCache := true,
          runAgent := fun _ => RunOutcome.ok "hi" 1 0 }
        0 { from_agent := "a", to_agent := "b", request_id := "r1" } ⟨[]⟩).1
      = (Engine.execute
        { registry := [("b", { agent_id := "b" })], policy := {}, hasCache := true,
          runAgent := fun _ => RunOutcome.ok "hi" 1 0 }
        { from_agent := "a", to_agent := "b", request_id := "r1" }).1 ∧
    cacheLookup
        (Engine.handoff
          { registry := [("b", { agent_id := "b" })], policy := {}, hasCache := true,
            runAgent := fun _ => RunOutcome.ok "hi" 1 0 }
          0 { from_agent := "a", to_agent := "b", request_id := "r1" } ⟨[]⟩).2.1 "r1"
      = some (Engine.handoff
          { registry := [("b", { agent_id := "b" })], policy := {}, hasCache := true,
            runAgent := fun _ => RunOutcome.ok "hi" 1 0 }
          0 { from_agent := "a", to_agent := "b", request_id := "r1" } ⟨[]⟩).1 ∧
    (Engine.handoff
        { registry := [("b", { agent_id := "b" })], policy := {}, hasCache := true,
          runAgent := fun _ => RunOutcome.ok "hi" 1 0 }
        10
        { from_agent := "a", to_agent := "b", request_id := "r1" }
        (Engine.handoff
          { registry := [("b", { agent_id := "b" })], policy := {}, hasCache := true,
            runAgent := fun _ => RunOutcome.ok "hi" 1 0 }
          0 { from_agent := "a", to_agent := "b", request_id := "r1" } ⟨[]⟩).2.1).1
      = { (Engine.handoff
          { registry := [("b", { agent_id := "b" })], policy := {}, hasCache := true,
            runAgent := fun _ => RunOutcome.ok "hi" 1 0 }
          0 { from_agent := "a", to_agent := "b", request_id := "r1" } ⟨[]⟩).1
          with cache_hit := true } ∧
    (Engine.handoff
        { registry := [("b", { agent_id := "b" })], policy := {}, hasCache := true,
          runAgent := fun _ => RunOutcome.ok "hi" 1 0 }
        10
        { from_agent := "a", to_agent := "b", request_id := "r1" }
        (Engine.handoff
          { registry := [("b", { agent_id := "b" })], policy := {}, hasCache := true,
            runAgent := fun _ => RunOutcome.ok "hi" 1 0 }
          0 { from_agent := "a", to_agent := "b", request_id := "r1" } ⟨[]⟩).2.1).2.2
      = false :=
  C1_theorem
    { registry := [("b", { agent_id := "b" })], policy := {}, hasCache := true,
      runAgent := fun _ => RunOutcome.ok "hi" 1 0 }
    { from_agent := "a", to_agent := "b", request_id := "r1" }
    ⟨[]⟩ 0 10 (by decide) (by decide) (by decide) (by decide)

end Handoff

namespace AgentLoop

/-- One tool call as reported by the LLM response (`loop.py`). The
`arguments` payload is kept as its raw text; the loop's `json.loads`
parsing does not influence any verified property. -/
structure ToolCall where
  id : String
  name : String
  arguments : String
deriving DecidableEq, Repr

/-- Behaviour of one `llm_fn` invocation (`loop.py`): either a message
with optional text content and a (possibly empty) tool-call list, or a
raised exception. Python `tool_calls=None` is the empty list. -/
inductive LLMResponse where
  | reply (content : Option String) (tool_calls : List ToolCall)
  | raise (msg : String)
deriving DecidableEq, Repr

/-- `ToolCallRecord` dataclass (`loop.py`). -/
structure ToolCallRecord where
  tool_name : String
  arguments : String
  result : String
  error : Option String
  call_id : String
deriving DecidableEq, Repr

/-- `TurnRecord` dataclass (`loop.py`). -/
structure TurnRecord where
  turn_number : Nat
  llm_output : Option String
  tool_calls : List ToolCallRecord
  is_final : Bool
deriving DecidableEq, Repr

/-- `AgentResult` dataclass (`loop.py`); the `messages` list is not
modelled (no claim concerns it). -/
structure AgentResult where
  final_output : String
  turns : List TurnRecord
  tool_calls_count : Nat
  total_turns : Nat
  stopped_reason : String
deriving DecidableEq, Repr

/-- One tool dispatch inside a turn (`loop.py`): on success the record
holds the result text; on exception the record keeps `result = ""` and
stores the error text. -/
def execCall (execTool : String → String → Except String String) (c : ToolCall) :
    ToolCallRecord :=
  match execTool c.name c.arguments with
  | .ok s => ⟨c.name, c.arguments, s, none, c.id⟩
  | .error e => ⟨c.name, c.arguments, "", some e, c.id⟩

/-- Python truthiness of `turn.llm_output`: false for `None` and `""`. -/
def truthyOutput : Option String → Bool
  | none => false
  | some s => s ≠ ""

/-- Result assembled on the `while`-`else` path of `AgentLoop.run`
(`loop.py`): `stopped_reason="max_turns"`, `final_output` taken from the
last recorded turn only when its text is truthy. -/
def maxTurnsResult (tn : Nat) (acc : List TurnRecord) (cnt : Nat) : AgentResult :=
  { final_output :=
      match acc.getLast? with
      | some tr => if truthyOutput tr.llm_output then tr.llm_output.getD "" else ""
      | none => ""
    turns := acc
    tool_calls_count := cnt
    total_turns := tn
    stopped_reason := "max_turns" }

/-- Body of `AgentLoop.run` (`loop.py`) specialized to the default
`AgentHooks()` (every hook `None`, hence never raising): fuel counts the
remaining iterations of `while turn_number < self.max_turns`; `tn` is
`turn_number`, `acc` the recorded turns, `cnt` `result.tool_calls_count`.
The `llm` oracle is indexed by the (1-based) turn number. The faithful
embedding with all six hook call sites is `runAuxWithHooks` below;
`runAuxWithHooks_default` proves this specialization agrees with it. -/
def runAux (llm : Nat → LLMResponse) (execTool : String → String → Except String String) :
    Nat → Nat → List TurnRecord → Nat → AgentResult
  | 0, tn, acc, cnt => maxTurnsResult tn acc cnt
  | fuel + 1, tn, acc, cnt =>
    let t := tn + 1
    match llm t with
    | .raise m =>
      { final_output := "Error: " ++ m
        turns := acc
        tool_calls_count := cnt
        total_turns := t
        stopped_reason := "error" }
    | .reply content calls =>
      if calls.isEmpty then
        { final_output := content.getD ""
          turns := acc ++ [⟨t, content, [], true⟩]
          tool_calls_count := cnt
          total_turns := t
          stopped_reason := "completed" }
      else
        runAux llm execTool fuel t
          (acc ++ [⟨t, content, calls.map (execCall execTool), false⟩])
          (cnt + calls.length)

/-- `AgentLoop.run` (`loop.py`), starting from turn 0 with empty
accumulators. -/
def run (llm : Nat → LLMResponse) (execTool : String → String → Except String String)
    (max_turns : Nat) : AgentResult :=
  runAux llm execTool max_turns 0 [] 0

/-- Total number of tool calls recorded across a list of turns. -/
def sumToolCalls (ts : List TurnRecord) : Nat :=
  (ts.map (fun tr => tr.tool_calls.length)).sum

/-- Whether an LLM response carries at least one tool call. -/
def hasToolCalls : LLMResponse → Bool
  | .reply _ calls => !calls.isEmpty
  | .raise _ => false

end AgentLoop

namespace AgentLoop

/-- C5 counterexample: with `max_turns = 2` and tool calls on every turn,
the run stops with `"max_turns"`, the text `"draft"` was emitted on turn
1 and is the last non-null LLM text of the run, yet `final_output` is
`""` because the code consults only the final turn's output. -/
theorem C5_counterexample :
    (run (fun t => if t = 1 then .reply (some "draft") [⟨"c1", "search", ""⟩]
                   else .reply none [⟨"c2", "search", ""⟩])
         (fun _ _ => .ok "r") 2).stopped_reason = "max_turns" ∧
    ((run (fun t => if t = 1 then .reply (some "draft") [⟨"c1", "search", ""⟩]
                   else .reply none [⟨"c2", "search", ""⟩])
         (fun _ _ => .ok "r") 2).turns.map TurnRecord.llm_output) = [some "draft", none] ∧
    (run (fun t => if t = 1 then .reply (some "draft") [⟨"c1", "search", ""⟩]
                   else .reply none [⟨"c2", "search", ""⟩])
         (fun _ _ => .ok "r") 2).final_output = "" := by decide

/-- Under an all-tool-calls oracle, `runAux` lands in the
`maxTurnsResult` branch having recorded one turn per remaining
iteration. -/
theorem runAux_max_turns (llm : Nat → LLMResponse)
    (execTool : String → String → Except String String) :
    ∀ (fuel tn : Nat) (acc : List TurnRecord) (cnt : Nat),
    (∀ t, t < fuel → hasToolCalls (llm (tn + t + 1)) = true) →
    ∃ turns cnt2, runAux llm execTool fuel tn acc cnt = maxTurnsResult (tn + fuel) turns cnt2 ∧
      turns.length = acc.length + fuel := by
  intro fuel
  induction fuel with
  | zero =>
    intro tn acc cnt _
    exact ⟨acc, cnt, by simp [runAux], by simp⟩
  | succ fuel ih =>
    intro tn acc cnt h
    have h0 : hasToolCalls (llm (tn + 1)) = true := by
      have := h 0 (Nat.succ_pos fuel)
      simpa using this
    rw [runAux]
    cases hr : llm (tn + 1) with
    | raise m => rw [hr] at h0; simp [hasToolCalls] at h0
    | reply content calls =>
      rw [hr] at h0
      have hcalls : calls.isEmpty = false := by
        simp [hasToolCalls] at h0
        simp [h0]
      simp only [hcalls, Bool.false_eq_true, if_false]
      have hshift : ∀ t, t < fuel → hasToolCalls (llm (tn + 1 + t + 1)) = true := by
        intro t ht
        have := h (t + 1) (by omega)
        have harg : tn + (t + 1) + 1 = tn + 1 + t + 1 := by omega
        rwa [harg] at this
      obtain ⟨turns, cnt2, heq, hlen⟩ := ih (tn + 1)
        (acc ++ [⟨tn + 1, content, calls.map (execCall execTool), false⟩])
        (cnt + calls.length) hshift
      refine ⟨turns, cnt2, ?_, by simp at hlen; omega⟩
      rw [heq]
      have harg2 : tn + 1 + fuel = tn + (fuel + 1) := by omega
      rw [harg2]

/-- C5 (amended): if every one of the `max_turns` iterations produces
tool calls, the run stops with `stopped_reason = "max_turns"` after
recording exactly `max_turns` turns, and `final_output` equals the LAST
turn's LLM text when that text is non-null and non-empty (not the last
non-null text of the whole run; an empty or null last-turn text leaves
`final_output` empty). -/
theorem C5_theorem (llm : Nat → LLMResponse) (execTool : String → String → Except String String)
    (max_turns : Nat)
    (h : ∀ t, t < max_turns → hasToolCalls (llm (t + 1)) = true) :
    (run llm execTool max_turns).stopped_reason = "max_turns" ∧
    (run llm execTool max_turns).total_turns = max_turns ∧
    (run llm execTool max_turns).turns.length = max_turns ∧
    (∀ s, ((run llm execTool max_turns).turns.getLast?).bind TurnRecord.llm_output = some s →
      s ≠ "" → (run llm execTool max_turns).final_output = s) := by
  have h2 : ∀ t, t < max_turns → hasToolCalls (llm (0 + t + 1)) = true := by
    intro t ht
    simpa using h t ht
  obtain ⟨turns, cnt2, heq, hlen⟩ := runAux_max_turns llm execTool max_turns 0 [] 0 h2
  have hrun : run llm execTool max_turns = maxTurnsResult max_turns turns cnt2 := by
    rw [run, heq]
    simp
  rw [hrun]
  refine ⟨rfl, rfl, by simpa using hlen, ?_⟩
  intro s hs hne
  simp only [maxTurnsResult] at hs ⊢
  cases hlast : turns.getLast? with
  | none => rw [hlast] at hs; simp at hs
  | some tr =>
    rw [hlast] at hs
    rw [Option.some_bind] at hs
    simp [hs, truthyOutput, hne]

/-- C5 witness: three turns of constant tool calls, `max_turns = 3`. -/
theorem C5_witness :
    (run (fun _ => .reply (some "looping") [⟨"c", "search", ""⟩])
        (fun _ _ => .ok "r") 3).stopped_reason = "max_turns" ∧
    (run (fun _ => .reply (some "looping") [⟨"c", "search", ""⟩])
        (fun _ _ => .ok "r") 3).total_turns = 3 ∧
    (run (fun _ => .reply (some "looping") [⟨"c", "search", ""⟩])
        (fun _ _ => .ok "r") 3).turns.length = 3 ∧
    (∀ s, ((run (fun _ => .reply (some "looping") [⟨"c", "search", ""⟩])
        (fun _ _ => .ok "r") 3).turns.getLast?).bind TurnRecord.llm_output = some s →
      s ≠ "" → (run (fun _ => .reply (some "looping") [⟨"c", "search", ""⟩])
        (fun _ _ => .ok "r") 3).final_output = s) :=
  C5_theorem (fun _ => .reply (some "looping") [⟨"c", "search", ""⟩])
    (fun _ _ => .ok "r") 3 (by decide)

end AgentLoop

namespace Memory

mutual
/-- Parsed JSON value (the dynamic dicts handled by
`zapry_agents_sdk/memory/long_term.py`); numbers restricted to integers
(the only numerals the memory layer itself produces). -/
inductive Json where
  | null
  | bool (b : Bool)
  | num (n : Int)
  | str (s : String)
  | arr (xs : JsonList)
  | obj (kvs : JsonObj)
deriving DecidableEq, Repr
/-- Spine of a JSON array. -/
inductive JsonList where
  | nil
  | cons (hd : Json) (tl : JsonList)
deriving DecidableEq, Repr
/-- Spine of a JSON object: insertion-ordered key/value pairs (Python
dicts keep insertion order and unique keys). -/
inductive JsonObj where
  | nil
  | cons (k : String) (v : Json) (tl : JsonObj)
deriving DecidableEq, Repr
end

/-- Build an object from a list of pairs. -/
def JsonObj.ofList : List (String × Json) → JsonObj
  | [] => .nil
  | (k, v) :: rest => .cons k v (JsonObj.ofList rest)

/-- Build an array from a list of values. -/
def JsonList.ofList : List Json → JsonList
  | [] => .nil
  | v :: rest => .cons v (JsonList.ofList rest)

/-- Underlying list of an array. -/
def JsonList.toList : JsonList → List Json
  | .nil => []
  | .cons h t => h :: JsonList.toList t

/-- Append for array spines. -/
def JsonList.append : JsonList → JsonList → JsonList
  | .nil, ys => ys
  | .cons h t, ys => .cons h (JsonList.append t ys)

/-- Dict lookup `o[k]` (first match; Python dicts hold each key once). -/
def JsonObj.getKey : JsonObj → String → Option Json
  | .nil, _ => none
  | .cons k v t, key => if k = key then some v else JsonObj.getKey t key

/-- Dict assignment `o[k] = v`: overwrite in place, else append. -/
def JsonObj.setKey : JsonObj → String → Json → JsonObj
  | .nil, key, v => .cons key v .nil
  | .cons k w t, key, v =>
    if k = key then .cons k v t else .cons k w (JsonObj.setKey t key v)

/-- Keys of an object, in order. -/
def JsonObj.keys : JsonObj → List String
  | .nil => []
  | .cons k _ t => k :: JsonObj.keys t

mutual
/-- Python `repr` of a parsed JSON value (`None`/`True`/`False`,
single-quoted strings, bracketed containers). -/
def jrepr : Json → String
  | .null => "None"
  | .bool true => "True"
  | .bool false => "False"
  | .num n => toString n
  | .str s => "\x27" ++ s ++ "\x27"
  | .arr xs => "[" ++ jreprList xs ++ "]"
  | .obj kvs => "\x7b" ++ jreprObj kvs ++ "\x7d"
/-- Comma-joined reprs of array elements. -/
def jreprList : JsonList → String
  | .nil => ""
  | .cons h .nil => jrepr h
  | .cons h t => jrepr h ++ ", " ++ jreprList t
/-- Comma-joined `key: value` reprs of object entries. -/
def jreprObj : JsonObj → String
  | .nil => ""
  | .cons k v .nil => "\x27" ++ k ++ "\x27: " ++ jrepr v
  | .cons k v t => "\x27" ++ k ++ "\x27: " ++ jrepr v ++ ", " ++ jreprObj t
end

/-- Python `str()` of a parsed JSON value: bare text for strings,
`repr` otherwise — the string form `_deep_merge` dedups lists by. -/
def jstr : Json → String
  | .str s => s
  | v => jrepr v

/-- Membership of a string form among an array's elements. -/
def hasStr : JsonList → String → Bool
  | .nil, _ => false
  | .cons h t, s => jstr h = s || hasStr t s

/-- List merge of `_deep_merge` (`long_term.py`): walk the override
items, appending each whose `str` form is not yet present (the
`existing` set grows as items are appended). -/
def listMergeDedup : JsonList → JsonList → JsonList
  | xs, .nil => xs
  | xs, .cons h t =>
    if hasStr xs (jstr h) then listMergeDedup xs t
    else listMergeDedup (xs.append (.cons h .nil)) t

/-- Scalar in the sense of `_deep_merge`: not `None`, not a dict, not a
list (overwrites the base value unconditionally). -/
def isScalar : Json → Bool
  | .null | .arr _ | .obj _ => false
  | _ => true

mutual
/-- One override item of `_deep_merge` (`long_term.py`): a `None` value
is skipped, a dict merges recursively into a dict at the same key, a
list extends a list at the same key with dedup by string form, and
anything else overwrites `base[k]`. -/
def mergeStep (base : JsonObj) (k : String) : Json → JsonObj
  | .null => base
  | .obj ov =>
    match base.getKey k with
    | some (.obj bv) => base.setKey k (.obj (deepMerge bv ov))
    | _ => base.setKey k (.obj ov)
  | .arr oxs =>
    match base.getKey k with
    | some (.arr bxs) => base.setKey k (.arr (listMergeDedup bxs oxs))
    | _ => base.setKey k (.arr oxs)
  | v => base.setKey k v

/-- `_deep_merge(base, override)` (`long_term.py`): fold the override
items, in order, into a copy of the base. -/
def deepMerge : JsonObj → JsonObj → JsonObj
  | base, .nil => base
  | base, .cons k v rest => deepMerge (mergeStep base k v) rest
end

/-- `DEFAULT_MEMORY_SCHEMA` (`memory/types.py`). -/
def DEFAULT_MEMORY_SCHEMA : JsonObj :=
  .ofList [("basic_info", .obj .nil), ("personality", .obj .nil),
           ("life_context", .obj .nil), ("interests", .arr .nil),
           ("summary", .str ""), ("preferences", .obj .nil),
           ("meta", .obj (.ofList [("conversation_count", .num 0),
                                   ("created_at", .str ""), ("updated_at", .str "")]))]

/-- `LongTermMemory` state: the stored value (parsed; `None` when the
store has no value for the `long_term` key) and the default schema.
The TTL cache always mirrors the store in the update-then-get claims
modelled here, so it is not tracked separately. -/
structure LTM where
  stored : Option JsonObj
  default_schema : JsonObj
deriving DecidableEq, Repr

/-- Stamp `meta.created_at` on a fresh default copy (`get`, `long_term.py`);
Python raises `TypeError` when `meta` is present but not a dict. -/
def stampCreated (now : String) (d : JsonObj) : Except String JsonObj :=
  match d.getKey "meta" with
  | none => .ok d
  | some (.obj mo) => .ok (d.setKey "meta" (.obj (mo.setKey "created_at" (.str now))))
  | some _ => .error "TypeError: item assignment on non-dict meta"

/-- `LongTermMemory.get` (`long_term.py`): the stored value, else a
fresh copy of the default schema with `meta.created_at` stamped. -/
def get (now : String) (m : LTM) : Except String JsonObj :=
  match m.stored with
  | some d => .ok d
  | none => stampCreated now m.default_schema

/-- `int`-like value of `meta.get("conversation_count", 0)`: Python adds
1 to ints and bools; any other present value raises. -/
def countOf : Option Json → Option Int
  | none => some 0
  | some (.num n) => some n
  | some (.bool b) => some (if b then 1 else 0)
  | some _ => none

/-- Conversation-count bump of `update` (`long_term.py`): when `meta`
is present it must be a dict with an addable count, which is incremented
and `updated_at` stamped; a non-dict `meta` or non-addable count raises. -/
def bumpMeta (now : String) (merged : JsonObj) : Except String JsonObj :=
  match merged.getKey "meta" with
  | none => .ok merged
  | some (.obj mo) =>
    match countOf (mo.getKey "conversation_count") with
    | some n =>
      .ok (merged.setKey "meta"
        (.obj ((mo.setKey "conversation_count" (.num (n + 1))).setKey "updated_at" (.str now))))
    | none => .error "TypeError: unsupported operand for conversation_count + 1"
  | some _ => .error "AttributeError: meta is not a dict"

/-- The `meta`-stamp of `LongTermMemory.save` (`long_term.py`):
`data["meta"]["updated_at"] = now` when `meta` is present. -/
def saveStamp (now : String) (data : JsonObj) : Except String JsonObj :=
  match data.getKey "meta" with
  | none => .ok data
  | some (.obj mo) => .ok (data.setKey "meta" (.obj (mo.setKey "updated_at" (.str now))))
  | some _ => .error "TypeError: item assignment on non-dict meta"

/-- `LongTermMemory.update` (`long_term.py`): get, deep-merge, bump the
conversation count, save (which stamps `updated_at` and writes both the
store and the cache), and return the merged object. -/
def update (now : String) (m : LTM) (updates : JsonObj) : Except String (LTM × JsonObj) :=
  match get now m with
  | .error e => .error e
  | .ok current =>
    match bumpMeta now (deepMerge current updates) with
    | .error e => .error e
    | .ok merged2 =>
      match saveStamp now merged2 with
      | .error e => .error e
      | .ok saved => .ok (⟨some saved, m.default_schema⟩, saved)

/-- `meta.conversation_count` of an object, through the same lens as the
code (`.get("conversation_count", 0)`, bools count as ints). -/
def metaCount (o : JsonObj) : Option Int :=
  match o.getKey "meta" with
  | some (.obj mo) => countOf (mo.getKey "conversation_count")
  | _ => none

end Memory

namespace Memory

/-- Assignment makes the key map to the new value. -/
theorem getKey_setKey_self : ∀ (o : JsonObj) (k : String) (v : Json),
    (o.setKey k v).getKey k = some v
  | .nil, k, v => by simp [JsonObj.setKey, JsonObj.getKey]
  | .cons k2 w t, k, v => by
    by_cases h : k2 = k
    · simp [JsonObj.setKey, JsonObj.getKey, h]
    · simp [JsonObj.setKey, JsonObj.getKey, h, getKey_setKey_self t k v]

/-- Assignment leaves other keys unchanged. -/
theorem getKey_setKey_ne : ∀ (o : JsonObj) (k k2 : String) (v : Json), k ≠ k2 →
    (o.setKey k v).getKey k2 = o.getKey k2
  | .nil, k, k2, v, h => by simp [JsonObj.setKey, JsonObj.getKey, h]
  | .cons k3 w t, k, k2, v, h => by
    by_cases h3 : k3 = k
    · simp [JsonObj.setKey, JsonObj.getKey, h3, h]
    · by_cases h4 : k3 = k2
      · have h5 : ¬ k2 = k := fun hh => h hh.symm
        simp [JsonObj.setKey, JsonObj.getKey, h3, h4, h5]
      · simp [JsonObj.setKey, JsonObj.getKey, h3, h4, getKey_setKey_ne t k k2 v h]

/-- Assignment never removes a key. -/
theorem getKey_setKey_isSome (o : JsonObj) (k k2 : String) (v : Json)
    (h : (o.getKey k2).isSome) : ((o.setKey k v).getKey k2).isSome := by
  by_cases hk : k = k2
  · subst hk
    rw [getKey_setKey_self]
    rfl
  · rwa [getKey_setKey_ne o k k2 v hk]

/-- A merge step either skips (`None` value) or assigns exactly the key
it processes. -/
theorem mergeStep_shape (base : JsonObj) (k : String) (v : Json) :
    mergeStep base k v = base ∨ ∃ w, mergeStep base k v = base.setKey k w := by
  cases v with
  | null => exact Or.inl rfl
  | bool b => exact Or.inr ⟨.bool b, rfl⟩
  | num n => exact Or.inr ⟨.num n, rfl⟩
  | str s => exact Or.inr ⟨.str s, rfl⟩
  | obj ov =>
    right
    simp only [mergeStep]
    cases hbk : base.getKey k with
    | none => exact ⟨.obj ov, rfl⟩
    | some w => cases w <;> exact ⟨_, rfl⟩
  | arr oxs =>
    right
    simp only [mergeStep]
    cases hbk : base.getKey k with
    | none => exact ⟨.arr oxs, rfl⟩
    | some w => cases w <;> exact ⟨_, rfl⟩

/-- A merge step never removes a key. -/
theorem mergeStep_isSome (base : JsonObj) (k k2 : String) (v : Json)
    (h : (base.getKey k2).isSome) : ((mergeStep base k v).getKey k2).isSome := by
  rcases mergeStep_shape base k v with heq | ⟨w, heq⟩
  · rwa [heq]
  · rw [heq]
    exact getKey_setKey_isSome base k k2 w h

/-- A merge step leaves keys other than its own unchanged. -/
theorem mergeStep_getKey_ne (base : JsonObj) (k k2 : String) (v : Json) (h : k ≠ k2) :
    (mergeStep base k v).getKey k2 = base.getKey k2 := by
  rcases mergeStep_shape base k v with heq | ⟨w, heq⟩
  · rw [heq]
  · rw [heq]
    exact getKey_setKey_ne base k k2 w h

/-- A scalar override value is assigned verbatim. -/
theorem mergeStep_scalar (base : JsonObj) (k : String) (v : Json)
    (h : isScalar v = true) : mergeStep base k v = base.setKey k v := by
  cases v with
  | null => simp [isScalar] at h
  | bool b => rfl
  | num n => rfl
  | str s => rfl
  | obj ov => simp [isScalar] at h
  | arr oxs => simp [isScalar] at h

/-- A list override value over a list base value merges with dedup. -/
theorem mergeStep_arr (base : JsonObj) (k : String) (bx ox : JsonList)
    (h : base.getKey k = some (.arr bx)) :
    mergeStep base k (.arr ox) = base.setKey k (.arr (listMergeDedup bx ox)) := by
  simp only [mergeStep, h]

end Memory

namespace Memory

/-- Deep merge never removes a top-level key of the base. -/
theorem deepMerge_isSome : ∀ (o base : JsonObj) (k2 : String),
    (base.getKey k2).isSome → ((deepMerge base o).getKey k2).isSome
  | .nil, _, _, h => h
  | .cons k v rest, base, k2, h =>
    deepMerge_isSome rest (mergeStep base k v) k2 (mergeStep_isSome base k k2 v h)

/-- Keys not mentioned by the override keep their base value. -/
theorem deepMerge_getKey_not_mem : ∀ (o base : JsonObj) (k2 : String),
    k2 ∉ o.keys → (deepMerge base o).getKey k2 = base.getKey k2
  | .nil, _, _, _ => rfl
  | .cons k v rest, base, k2, h => by
    have hk : k ≠ k2 := by
      intro he
      exact h (by simp [JsonObj.keys, he])
    have hrest : k2 ∉ rest.keys := by
      intro hm
      exact h (by simp [JsonObj.keys, hm])
    rw [deepMerge]
    rw [deepMerge_getKey_not_mem rest (mergeStep base k v) k2 hrest]
    exact mergeStep_getKey_ne base k k2 v hk

/-- A scalar override value ends up verbatim in the merged object (keys
of a Python dict are unique, hence the `Nodup` hypothesis). -/
theorem deepMerge_scalar : ∀ (o base : JsonObj) (k : String) (v : Json),
    o.getKey k = some v → isScalar v = true → o.keys.Nodup →
    (deepMerge base o).getKey k = some v
  | .nil, _, k, v, hget, _, _ => by simp [JsonObj.getKey] at hget
  | .cons k1 v1 rest, base, k, v, hget, hscal, hnodup => by
    by_cases hk : k1 = k
    · have hv : v1 = v := by
        rw [JsonObj.getKey, if_pos hk] at hget
        exact Option.some.inj hget
      subst hk hv
      have hnomem : k1 ∉ rest.keys := by
        have := hnodup
        simp [JsonObj.keys] at this
        exact this.1
      rw [deepMerge]
      rw [deepMerge_getKey_not_mem rest (mergeStep base k1 v1) k1 hnomem]
      rw [mergeStep_scalar base k1 v1 hscal]
      exact getKey_setKey_self base k1 v1
    · have hget2 : rest.getKey k = some v := by
        rwa [JsonObj.getKey, if_neg hk] at hget
      have hnodup2 : rest.keys.Nodup := by
        have := hnodup
        simp [JsonObj.keys] at this
        exact this.2
      rw [deepMerge]
      exact deepMerge_scalar rest (mergeStep base k1 v1) k v hget2 hscal hnodup2

/-- A list override value over a list base value ends up as the deduped
extension in the merged object. -/
theorem deepMerge_arr : ∀ (o base : JsonObj) (k : String) (bx ox : JsonList),
    o.getKey k = some (.arr ox) → base.getKey k = some (.arr bx) → o.keys.Nodup →
    (deepMerge base o).getKey k = some (.arr (listMergeDedup bx ox))
  | .nil, _, k, _, _, hget, _, _ => by simp [JsonObj.getKey] at hget
  | .cons k1 v1 rest, base, k, bx, ox, hget, hbase, hnodup => by
    by_cases hk : k1 = k
    · have hv : v1 = .arr ox := by
        rw [JsonObj.getKey, if_pos hk] at hget
        exact Option.some.inj hget
      subst hk hv
      have hnomem : k1 ∉ rest.keys := by
        have := hnodup
        simp [JsonObj.keys] at this
        exact this.1
      rw [deepMerge]
      rw [deepMerge_getKey_not_mem rest _ k1 hnomem]
      rw [mergeStep_arr base k1 bx ox hbase]
      exact getKey_setKey_self base k1 _
    · have hget2 : rest.getKey k = some (.arr ox) := by
        rwa [JsonObj.getKey, if_neg hk] at hget
      have hnodup2 : rest.keys.Nodup := by
        have := hnodup
        simp [JsonObj.keys] at this
        exact this.2
      have hbase2 : (mergeStep base k1 v1).getKey k = some (.arr bx) := by
        rw [mergeStep_getKey_ne base k1 k v1 hk]
        exact hbase
      rw [deepMerge]
      exact deepMerge_arr rest (mergeStep base k1 v1) k bx ox hget2 hbase2 hnodup2

/-- Appending array spines concatenates their element lists. -/
theorem toList_append : ∀ (xs ys : JsonList),
    (xs.append ys).toList = xs.toList ++ ys.toList
  | .nil, _ => rfl
  | .cons h t, ys => by
    simp [JsonList.append, JsonList.toList, toList_append t ys]

/-- `hasStr` decides the existence of an element with the given string form. -/
theorem hasStr_iff : ∀ (xs : JsonList) (s : String),
    hasStr xs s = true ↔ ∃ v ∈ xs.toList, jstr v = s
  | .nil, s => by simp [hasStr, JsonList.toList]
  | .cons h t, s => by
    simp [hasStr, JsonList.toList, hasStr_iff t s]

/-- The deduped list merge keeps every base element. -/
theorem mem_listMergeDedup_left : ∀ (ys xs : JsonList) (v : Json),
    v ∈ xs.toList → v ∈ (listMergeDedup xs ys).toList
  | .nil, _, _, h => h
  | .cons h2 t, xs, v, h => by
    rw [listMergeDedup]
    by_cases hh : hasStr xs (jstr h2) = true
    · rw [if_pos hh]
      exact mem_listMergeDedup_left t xs v h
    · rw [if_neg hh]
      refine mem_listMergeDedup_left t _ v ?_
      rw [toList_append]
      exact List.mem_append_left _ h

/-- Every override item is represented (by string form) in the merged list. -/
theorem listMergeDedup_covers : ∀ (ys xs : JsonList) (item : Json),
    item ∈ ys.toList →
    ∃ it ∈ (listMergeDedup xs ys).toList, jstr it = jstr item
  | .nil, _, _, h => by simp [JsonList.toList] at h
  | .cons h2 t, xs, item, h => by
    rw [JsonList.toList] at h
    rw [listMergeDedup]
    by_cases hh : hasStr xs (jstr h2) = true
    · rw [if_pos hh]
      rcases List.mem_cons.mp h with h | h
      · subst h
        obtain ⟨v, hv, hs⟩ := (hasStr_iff xs (jstr item)).mp hh
        exact ⟨v, mem_listMergeDedup_left t xs v hv, hs⟩
      · exact listMergeDedup_covers t xs item h
    · rw [if_neg hh]
      rcases List.mem_cons.mp h with h | h
      · subst h
        refine ⟨item, ?_, rfl⟩
        refine mem_listMergeDedup_left t _ item ?_
        rw [toList_append]
        refine List.mem_append_right _ ?_
        simp [JsonList.toList]
      · exact listMergeDedup_covers t _ item h

end Memory

namespace Memory

/-- A successful count bump either leaves the object unchanged (no
`meta`) or reassigns exactly the `meta` key to a dict. -/
theorem bumpMeta_ok_shape (now : String) (merged m2 : JsonObj)
    (h : bumpMeta now merged = .ok m2) :
    m2 = merged ∨ ∃ mo : JsonObj, m2 = merged.setKey "meta" (.obj mo) := by
  unfold bumpMeta at h
  cases hm : merged.getKey "meta" with
  | none =>
    rw [hm] at h
    exact Or.inl (Except.ok.inj h).symm
  | some w =>
    rw [hm] at h
    cases w with
    | obj mo =>
      dsimp only at h
      cases hc : countOf (mo.getKey "conversation_count") with
      | none => rw [hc] at h; simp at h
      | some n =>
        rw [hc] at h
        exact Or.inr ⟨_, (Except.ok.inj h).symm⟩
    | null => simp at h
    | bool b => simp at h
    | num n => simp at h
    | str s => simp at h
    | arr xs => simp at h

/-- The save-time stamp either leaves the object unchanged (no `meta`)
or reassigns exactly the `meta` key to a dict. -/
theorem saveStamp_ok_shape (now : String) (data saved : JsonObj)
    (h : saveStamp now data = .ok saved) :
    saved = data ∨ ∃ mo : JsonObj, saved = data.setKey "meta" (.obj mo) := by
  unfold saveStamp at h
  cases hm : data.getKey "meta" with
  | none =>
    rw [hm] at h
    exact Or.inl (Except.ok.inj h).symm
  | some w =>
    rw [hm] at h
    cases w with
    | obj mo => exact Or.inr ⟨_, (Except.ok.inj h).symm⟩
    | null => simp at h
    | bool b => simp at h
    | num n => simp at h
    | str s => simp at h
    | arr xs => simp at h

/-- A successful count bump leaves keys other than `meta` unchanged. -/
theorem bumpMeta_getKey_ne (now : String) (merged m2 : JsonObj) (k : String)
    (h : bumpMeta now merged = .ok m2) (hk : k ≠ "meta") :
    m2.getKey k = merged.getKey k := by
  rcases bumpMeta_ok_shape now merged m2 h with heq | ⟨mo, heq⟩
  · rw [heq]
  · rw [heq]
    exact getKey_setKey_ne merged "meta" k _ (fun he => hk he.symm)

/-- The save-time stamp leaves keys other than `meta` unchanged. -/
theorem saveStamp_getKey_ne (now : String) (data saved : JsonObj) (k : String)
    (h : saveStamp now data = .ok saved) (hk : k ≠ "meta") :
    saved.getKey k = data.getKey k := by
  rcases saveStamp_ok_shape now data saved h with heq | ⟨mo, heq⟩
  · rw [heq]
  · rw [heq]
    exact getKey_setKey_ne data "meta" k _ (fun he => hk he.symm)

/-- A non-dict `meta` value makes the count bump raise (`AttributeError`
in Python), never succeed. -/
theorem bumpMeta_nonobj_err (now : String) (merged : JsonObj) (v : Json)
    (h : merged.getKey "meta" = some v) (hno : ∀ mo : JsonObj, v ≠ .obj mo) :
    ∀ m2, bumpMeta now merged ≠ .ok m2 := by
  intro m2 hok
  unfold bumpMeta at hok
  rw [h] at hok
  cases v with
  | obj mo => exact hno mo rfl
  | null => simp at hok
  | bool b => simp at hok
  | num n => simp at hok
  | str s => simp at hok
  | arr xs => simp at hok

/-- The save-time stamp does not change `meta.conversation_count`. -/
theorem saveStamp_metaCount (now : String) (data saved : JsonObj)
    (h : saveStamp now data = .ok saved) : metaCount saved = metaCount data := by
  unfold saveStamp at h
  cases hm : data.getKey "meta" with
  | none =>
    rw [hm] at h
    rw [(Except.ok.inj h).symm]
  | some w =>
    rw [hm] at h
    cases w with
    | obj mo =>
      have hsv : saved = data.setKey "meta" (.obj (mo.setKey "updated_at" (.str now))) :=
        (Except.ok.inj h).symm
      rw [hsv]
      unfold metaCount
      rw [getKey_setKey_self, hm]
      dsimp only
      rw [getKey_setKey_ne mo "updated_at" "conversation_count" _ (by decide)]
    | null => simp at h
    | bool b => simp at h
    | num n => simp at h
    | str s => simp at h
    | arr xs => simp at h

/-- The save-time stamp preserves presence of the `meta` key. -/
theorem saveStamp_meta_isSome (now : String) (data saved : JsonObj)
    (h : saveStamp now data = .ok saved) :
    (saved.getKey "meta").isSome = (data.getKey "meta").isSome := by
  unfold saveStamp at h
  cases hm : data.getKey "meta" with
  | none =>
    rw [hm] at h
    dsimp only at h
    rw [(Except.ok.inj h).symm, hm]
  | some w =>
    rw [hm] at h
    cases w with
    | obj mo =>
      dsimp only at h
      rw [(Except.ok.inj h).symm]
      simp [getKey_setKey_self, hm]
    | null => simp at h
    | bool b => simp at h
    | num n => simp at h
    | str s => simp at h
    | arr xs => simp at h

/-- A successful count bump on an object whose `meta` is present yields
a count exactly one above the pre-bump count. -/
theorem bumpMeta_metaCount (now : String) (merged mb : JsonObj)
    (h : bumpMeta now merged = .ok mb) (hsome : (mb.getKey "meta").isSome = true) :
    metaCount mb = (metaCount merged).map (· + 1) := by
  unfold bumpMeta at h
  cases hm : merged.getKey "meta" with
  | none =>
    rw [hm] at h
    rw [(Except.ok.inj h).symm] at hsome
    rw [hm] at hsome
    simp at hsome
  | some w =>
    rw [hm] at h
    cases w with
    | obj mo =>
      dsimp only at h
      cases hc : countOf (mo.getKey "conversation_count") with
      | none => rw [hc] at h; simp at h
      | some n =>
        rw [hc] at h
        have hmb : mb = merged.setKey "meta"
            (.obj ((mo.setKey "conversation_count" (.num (n + 1))).setKey
              "updated_at" (.str now))) := (Except.ok.inj h).symm
        rw [hmb]
        unfold metaCount
        rw [getKey_setKey_self, hm]
        dsimp only
        rw [getKey_setKey_ne _ "updated_at" "conversation_count" _ (by decide)]
        rw [getKey_setKey_self, hc]
        rfl
    | null => simp at h
    | bool b => simp at h
    | num n => simp at h
    | str s => simp at h
    | arr xs => simp at h

end Memory

namespace Memory

/-- C6 counterexample: starting from a profile whose
`meta.conversation_count` is 5, a delta that itself sets
`meta.conversation_count = 100` merges to 100 and is then bumped to 101
— the count did not increase by exactly 1 relative to the prior value. -/
theorem C6_counterexample :
    metaCount (.ofList [("meta", .obj (.ofList [("conversation_count", .num 5)]))])
      = some 5 ∧
    ((update "T"
        ⟨some (.ofList [("meta", .obj (.ofList [("conversation_count", .num 5)]))]),
         DEFAULT_MEMORY_SCHEMA⟩
        (.ofList [("meta", .obj (.ofList [("conversation_count", .num 100)]))])).toOption.map
      (fun p => metaCount p.2)) = some (some 101) ∧
    (101 : Int) ≠ 5 + 1 := by decide

/-- C6 (amended): for a successful `update(Δ)` (the code raises when the
merged `meta` is not a dict with an addable count) with Python-dict
(duplicate-free) keys in Δ, after `update` then `get`: every top-level
key of the prior value is still present; every non-None scalar key of Δ
holds Δ's value; every key holding lists in both the prior value and Δ
holds a list containing every Δ item up to string form; and
`meta.conversation_count` (when a `meta` key is present) equals the
post-merge count plus exactly 1 — which is the prior count plus 1
whenever Δ itself does not write `meta.conversation_count`. -/
theorem C6_theorem (now : String) (m : LTM) (updates : JsonObj)
    (prior merged2 : JsonObj) (m2 : LTM)
    (hget : get now m = .ok prior)
    (hupd : update now m updates = .ok (m2, merged2))
    (hnodup : updates.keys.Nodup) :
    (∀ k, (prior.getKey k).isSome → (merged2.getKey k).isSome) ∧
    (∀ k v, updates.getKey k = some v → isScalar v = true → merged2.getKey k = some v) ∧
    (∀ k bx ox, prior.getKey k = some (.arr bx) → updates.getKey k = some (.arr ox) →
      ∃ rx, merged2.getKey k = some (.arr rx) ∧
        ∀ item ∈ ox.toList, ∃ it ∈ rx.toList, jstr it = jstr item) ∧
    ((merged2.getKey "meta").isSome = true →
      metaCount merged2 = (metaCount (deepMerge prior updates)).map (· + 1)) ∧
    m2.stored = some merged2 := by
  unfold update at hupd
  rw [hget] at hupd
  dsimp only at hupd
  cases hb : bumpMeta now (deepMerge prior updates) with
  | error e => rw [hb] at hupd; simp at hupd
  | ok mb =>
    rw [hb] at hupd
    dsimp only at hupd
    cases hsv : saveStamp now mb with
    | error e => rw [hsv] at hupd; simp at hupd
    | ok saved =>
      rw [hsv] at hupd
      dsimp only at hupd
      have hpair := Except.ok.inj hupd
      have hm2 : m2 = ⟨some saved, m.default_schema⟩ := (congrArg Prod.fst hpair).symm
      have hmg : merged2 = saved := (congrArg Prod.snd hpair).symm
      rw [hmg]
      refine ⟨?_, ?_, ?_, ?_, by rw [hm2]⟩
      · intro k hk
        have h1 := deepMerge_isSome updates prior k hk
        have h2 : ((mb.getKey k).isSome) := by
          rcases bumpMeta_ok_shape now _ mb hb with heq | ⟨mo, heq⟩
          · rwa [heq]
          · rw [heq]
            exact getKey_setKey_isSome _ "meta" k _ h1
        rcases saveStamp_ok_shape now mb saved hsv with heq | ⟨mo, heq⟩
        · rwa [heq]
        · rw [heq]
          exact getKey_setKey_isSome _ "meta" k _ h2
      · intro k v hv hscal
        have h1 : (deepMerge prior updates).getKey k = some v :=
          deepMerge_scalar updates prior k v hv hscal hnodup
        by_cases hk : k = "meta"
        · subst hk
          exfalso
          refine bumpMeta_nonobj_err now _ v h1 ?_ mb hb
          intro mo he
          subst he
          simp [isScalar] at hscal
        · rw [saveStamp_getKey_ne now mb saved k hsv hk,
            bumpMeta_getKey_ne now _ mb k hb hk]
          exact h1
      · intro k bx ox hpk hok
        have h1 : (deepMerge prior updates).getKey k = some (.arr (listMergeDedup bx ox)) :=
          deepMerge_arr updates prior k bx ox hok hpk hnodup
        by_cases hk : k = "meta"
        · subst hk
          exfalso
          exact bumpMeta_nonobj_err now _ _ h1 (fun mo he => by simp at he) mb hb
        · refine ⟨listMergeDedup bx ox, ?_, ?_⟩
          · rw [saveStamp_getKey_ne now mb saved k hsv hk,
              bumpMeta_getKey_ne now _ mb k hb hk]
            exact h1
          · intro item hitem
            exact listMergeDedup_covers ox bx item hitem
      · intro hsome
        have hsome2 : (mb.getKey "meta").isSome = true := by
          rw [← saveStamp_meta_isSome now mb saved hsv]
          exact hsome
        rw [saveStamp_metaCount now mb saved hsv]
        exact bumpMeta_metaCount now _ mb hb hsome2

/-- C6 witness: concrete update over a small profile. -/
theorem C6_witness :
    (∀ k, ((JsonObj.ofList [("interests", .arr (.ofList [.str "a"])),
        ("meta", .obj (.ofList [("conversation_count", .num 1)]))]).getKey k).isSome →
      (((JsonObj.ofList [("interests", .arr (.ofList [.str "a", .str "b"])),
        ("meta", .obj (.ofList [("conversation_count", .num 2), ("updated_at", .str "T")])),
        ("name", .str "bob")])).getKey k).isSome) ∧
    (∀ k v, (JsonObj.ofList [("name", .str "bob"),
        ("interests", .arr (.ofList [.str "b"]))]).getKey k = some v →
      isScalar v = true →
      (JsonObj.ofList [("interests", .arr (.ofList [.str "a", .str "b"])),
        ("meta", .obj (.ofList [("conversation_count", .num 2), ("updated_at", .str "T")])),
        ("name", .str "bob")]).getKey k = some v) ∧
    (∀ k bx ox, (JsonObj.ofList [("interests", .arr (.ofList [.str "a"])),
        ("meta", .obj (.ofList [("conversation_count", .num 1)]))]).getKey k
          = some (.arr bx) →
      (JsonObj.ofList [("name", .str "bob"),
        ("interests", .arr (.ofList [.str "b"]))]).getKey k = some (.arr ox) →
      ∃ rx, (JsonObj.ofList [("interests", .arr (.ofList [.str "a", .str "b"])),
        ("meta", .obj (.ofList [("conversation_count", .num 2), ("updated_at", .str "T")])),
        ("name", .str "bob")]).getKey k = some (.arr rx) ∧
        ∀ item ∈ ox.toList, ∃ it ∈ rx.toList, jstr it = jstr item) ∧
    (((JsonObj.ofList [("interests", .arr (.ofList [.str "a", .str "b"])),
        ("meta", .obj (.ofList [("conversation_count", .num 2), ("updated_at", .str "T")])),
        ("name", .str "bob")]).getKey "meta").isSome = true →
      metaCount (JsonObj.ofList [("interests", .arr (.ofList [.str "a", .str "b"])),
        ("meta", .obj (.ofList [("conversation_count", .num 2), ("updated_at", .str "T")])),
        ("name", .str "bob")])
        = (metaCount (deepMerge
            (.ofList [("interests", .arr (.ofList [.str "a"])),
              ("meta", .obj (.ofList [("conversation_count", .num 1)]))])
            (.ofList [("name", .str "bob"),
              ("interests", .arr (.ofList [.str "b"]))]))).map (· + 1)) ∧
    (LTM.mk (some (JsonObj.ofList [("interests", .arr (.ofList [.str "a", .str "b"])),
        ("meta", .obj (.ofList [("conversation_count", .num 2), ("updated_at", .str "T")])),
        ("name", .str "bob")])) DEFAULT_MEMORY_SCHEMA).stored
      = some (.ofList [("interests", .arr (.ofList [.str "a", .str "b"])),
        ("meta", .obj (.ofList [("conversation_count", .num 2), ("updated_at", .str "T")])),
        ("name", .str "bob")]) :=
  C6_theorem "T"
    ⟨some (.ofList [("interests", .arr (.ofList [.str "a"])),
        ("meta", .obj (.ofList [("conversation_count", .num 1)]))]),
     DEFAULT_MEMORY_SCHEMA⟩
    (.ofList [("name", .str "bob"), ("interests", .arr (.ofList [.str "b"]))])
    (.ofList [("interests", .arr (.ofList [.str "a"])),
        ("meta", .obj (.ofList [("conversation_count", .num 1)]))])
    (.ofList [("interests", .arr (.ofList [.str "a", .str "b"])),
        ("meta", .obj (.ofList [("conversation_count", .num 2), ("updated_at", .str "T")])),
        ("name", .str "bob")])
    (LTM.mk (some (JsonObj.ofList [("interests", .arr (.ofList [.str "a", .str "b"])),
        ("meta", .obj (.ofList [("conversation_count", .num 2), ("updated_at", .str "T")])),
        ("name", .str "bob")])) DEFAULT_MEMORY_SCHEMA)
    (by rfl) (by rfl) (by decide)

end Memory

/-- Decidable equality for embedded fallible results. -/
instance {ε α : Type} [DecidableEq ε] [DecidableEq α] : DecidableEq (Except ε α) := fun a b =>
  match a, b with
  | .error x, .error y =>
    if h : x = y then .isTrue (by rw [h]) else .isFalse (by intro hh; injection hh; contradiction)
  | .ok x, .ok y =>
    if h : x = y then .isTrue (by rw [h]) else .isFalse (by intro hh; injection hh; contradiction)
  | .error _, .ok _ => .isFalse (by intro hh; injection hh)
  | .ok _, .error _ => .isFalse (by intro hh; injection hh)

namespace Guardrails

/-- `GuardrailResult` dataclass (`guardrails/engine.py`); `metadata` is
not modelled (no claim concerns it). -/
structure GuardrailResult where
  passed : Bool
  reason : String
  guardrail_name : String
deriving DecidableEq, Repr

/-- One registered guard (`_GuardrailDef`): its name and the behaviour
of awaiting its function — either a returned `(passed, reason)` pair or
a raised exception (message text). -/
structure GuardDef where
  name : String
  behavior : Except String (Bool × String)
deriving DecidableEq, Repr

/-- `GuardrailManager._execute_one` (`guardrails/engine.py`): run the
guard and stamp its name on a returned result; a raise propagates. -/
def executeOne (g : GuardDef) : Except String GuardrailResult :=
  match g.behavior with
  | .error e => .error e
  | .ok (p, r) => .ok ⟨p, r, g.name⟩

/-- The scan loop of `GuardrailManager._run_parallel`
(`guardrails/engine.py`): over the gathered outcomes — which
`asyncio.gather` yields in task (declaration) order regardless of
completion order — return for the first exception a failed result named
`"unknown"`, return the first returned failure as-is, else pass. -/
def firstFailure : List (Except String GuardrailResult) → GuardrailResult
  | [] => ⟨true, "", ""⟩
  | .error e :: _ => ⟨false, "Guardrail error: " ++ e, "unknown"⟩
  | .ok r :: rest => if r.passed then firstFailure rest else r

/-- `GuardrailManager._run_parallel` (`guardrails/engine.py`). -/
def runParallel (guards : List GuardDef) : GuardrailResult :=
  firstFailure (guards.map executeOne)

/-- `GuardrailManager._run_sequential` (`guardrails/engine.py`): stop at
the first failure or raise; a raising guard keeps its own name here. -/
def runSequential : List GuardDef → GuardrailResult
  | [] => ⟨true, "", ""⟩
  | g :: rest =>
    match executeOne g with
    | .ok r => if r.passed then runSequential rest else r
    | .error e => ⟨false, "Guardrail error: " ++ e, g.name⟩

/-- `GuardrailManager._run_guards` (`guardrails/engine.py`). -/
def runGuards (parallel : Bool) (guards : List GuardDef) : GuardrailResult :=
  if guards.isEmpty then ⟨true, "", ""⟩
  else if parallel then runParallel guards
  else runSequential guards

/-- Payload of the `InputGuardrailTriggered` exception
(`guardrails/engine.py`). -/
structure InputGuardrailTriggered where
  guardrail_name : String
  reason : String
deriving DecidableEq, Repr

/-- `GuardrailManager.check_input` (`guardrails/engine.py`): raise the
tripwire exception on a failed result, else return the result. -/
def check_input (parallel : Bool) (guards : List GuardDef) :
    Except InputGuardrailTriggered GuardrailResult :=
  let result := runGuards parallel guards
  if result.passed then .ok result
  else .error ⟨result.guardrail_name, result.reason⟩

/-- A guard counts as failing when it raises or returns `passed=False`. -/
def isFailing (g : GuardDef) : Bool :=
  match g.behavior with
  | .error _ => true
  | .ok (p, _) => !p

end Guardrails

namespace Guardrails

/-- Error projection of a check outcome. -/
def errOf : Except InputGuardrailTriggered GuardrailResult → Option InputGuardrailTriggered
  | .error t => some t
  | .ok _ => none

/-- C7 counterexample: when the first failing guard in declaration order
fails by raising, the tripwire carries the name `"unknown"`, not that
guard's name. -/
theorem C7_counterexample :
    (List.find? isFailing [⟨"gA", .error "boom"⟩, ⟨"gB", .ok (false, "bad")⟩]).map
        GuardDef.name = some "gA" ∧
    errOf (check_input true [⟨"gA", .error "boom"⟩, ⟨"gB", .ok (false, "bad")⟩])
      = some ⟨"unknown", "Guardrail error: boom"⟩ ∧
    "unknown" ≠ "gA" := by decide

/-- C7 (amended): in parallel mode, if some input guard fails (a raise
counts as failure), `check_input` raises `InputGuardrailTriggered` for
the first failing guard in declaration order, independent of completion
order (`asyncio.gather` preserves task order); the exception carries
that guard's name and reason when the guard returned a failed result,
but the name `"unknown"` (with reason `"Guardrail error: …"`) when that
guard raised. -/
theorem C7_theorem (guards : List GuardDef) (g : GuardDef)
    (hfind : guards.find? isFailing = some g) :
    ∃ t, check_input true guards = .error t ∧
      (∀ e, g.behavior = .error e →
        t.guardrail_name = "unknown" ∧ t.reason = "Guardrail error: " ++ e) ∧
      (∀ p r, g.behavior = .ok (p, r) →
        t.guardrail_name = g.name ∧ t.reason = r) := by
  induction guards with
  | nil => simp at hfind
  | cons x rest ih =>
    rw [List.find?_cons] at hfind
    cases hx : isFailing x with
    | true =>
      rw [hx] at hfind
      simp at hfind
      subst hfind
      cases hb : x.behavior with
      | error e =>
        refine ⟨⟨"unknown", "Guardrail error: " ++ e⟩, ?_, ?_, ?_⟩
        · simp [check_input, runGuards, runParallel, executeOne, hb, firstFailure]
        · intro e2 he2
          injection he2 with he3
          subst he3
          exact ⟨rfl, rfl⟩
        · intro p r hpr
          simp at hpr
      | ok pr =>
        obtain ⟨p, r⟩ := pr
        have hp : p = false := by
          unfold isFailing at hx
          rw [hb] at hx
          simpa using hx
        subst hp
        refine ⟨⟨x.name, r⟩, ?_, ?_, ?_⟩
        · simp [check_input, runGuards, runParallel, executeOne, hb, firstFailure]
        · intro e2 he2
          simp at he2
        · intro p2 r2 hpr
          injection hpr with h3
          injection h3 with h4 h5
          subst h4 h5
          exact ⟨rfl, rfl⟩
    | false =>
      rw [hx] at hfind
      simp at hfind
      have hrest : rest.find? isFailing = some g := hfind
      obtain ⟨t, ht, he, hr⟩ := ih hrest
      have hne : rest ≠ [] := by
        intro hnil
        rw [hnil] at hrest
        simp at hrest
      have hxp : ∃ r2, x.behavior = .ok (true, r2) := by
        unfold isFailing at hx
        cases hb : x.behavior with
        | error e => rw [hb] at hx; simp at hx
        | ok pr =>
          obtain ⟨p, r2⟩ := pr
          rw [hb] at hx
          simp at hx
          exact ⟨r2, by rw [hx]⟩
      obtain ⟨r2, hxb⟩ := hxp
      have hstep : check_input true (x :: rest) = check_input true rest := by
        unfold check_input runGuards runParallel
        have h1 : (x :: rest).isEmpty = false := rfl
        have h2 : rest.isEmpty = false := by
          cases rest with
          | nil => exact absurd rfl hne
          | cons a b => rfl
        rw [h1, h2]
        simp only [Bool.false_eq_true, if_false, if_true, List.map_cons]
        rw [executeOne, hxb]
        rfl
      rw [hstep]
      exact ⟨t, ht, he, hr⟩

/-- C7 witness: a passing guard followed by a failing one. -/
theorem C7_witness :
    ∃ t, check_input true [⟨"ok1", .ok (true, "")⟩, ⟨"bad", .ok (false, "nope")⟩]
        = .error t ∧
      (∀ e, (GuardDef.mk "bad" (.ok (false, "nope"))).behavior = .error e →
        t.guardrail_name = "unknown" ∧ t.reason = "Guardrail error: " ++ e) ∧
      (∀ p r, (GuardDef.mk "bad" (.ok (false, "nope"))).behavior = .ok (p, r) →
        t.guardrail_name = "bad" ∧ t.reason = r) :=
  C7_theorem [⟨"ok1", .ok (true, "")⟩, ⟨"bad", .ok (false, "nope")⟩]
    ⟨"bad", .ok (false, "nope")⟩ (by decide)

end Guardrails

namespace MCP

open Memory in
/-- `MCPToolDef` dataclass (`mcp/protocol.py`); `input_schema` is the
raw `inputSchema` JSON (absent when the server sent none). -/
structure MCPToolDef where
  name : String
  description : String
  input_schema : Option Memory.Json
deriving DecidableEq, Repr

/-- The filtering fields of `MCPServerConfig` (`mcp/config.py`);
transport settings play no role in conversion. -/
structure MCPServerConfig where
  allowed_tools : List String := []
  blocked_tools : List String := []
  max_tools : Nat := 0
deriving DecidableEq, Repr

/-- `ToolParam` (`tools/registry.py`) as filled by the MCP converter;
`type` and `description` carry whatever JSON the schema held
(`prop.get(…, default)`). -/
structure ToolParam where
  name : String
  type : Memory.Json
  description : Memory.Json
  required : Bool
deriving DecidableEq, Repr

/-- `ToolDef` (`tools/registry.py`) as built by the MCP converter; the
async handler closure is behavioural and not modelled. -/
structure ToolDef where
  name : String
  description : String
  parameters : List ToolParam
  is_async : Bool
  raw_json_schema : Option Memory.Json
deriving DecidableEq, Repr

/-- `match_tool_filter` (`mcp/config.py`): wildcard match of a tool name
against a pattern. `fnmatch` abstracts Python's `fnmatch.fnmatch`
(stdlib, not part of this repository). -/
def match_tool_filter (fnmatch : String → String → Bool) (pattern tool_name : String) : Bool :=
  fnmatch tool_name pattern

/-- `is_tool_allowed` (`mcp/config.py`): blocked patterns take
precedence; an empty allow-list admits everything. -/
def is_tool_allowed (fnmatch : String → String → Bool) (name : String)
    (config : MCPServerConfig) : Bool :=
  if config.blocked_tools.any (fun p => match_tool_filter fnmatch p name) then false
  else if config.allowed_tools.isEmpty then true
  else config.allowed_tools.any (fun p => match_tool_filter fnmatch p name)

/-- `mcp_tool_name` (`mcp/converter.py`). -/
def mcp_tool_name (server tool : String) : String :=
  "mcp." ++ server ++ "." ++ tool

/-- Python truthiness of a JSON value (`if not input_schema`). -/
def jfalsy : Memory.Json → Bool
  | .null => true
  | .bool b => !b
  | .num n => n = 0
  | .str s => s = ""
  | .arr .nil => true
  | .arr _ => false
  | .obj .nil => true
  | .obj _ => false

/-- String value of a JSON lookup with a default (`t.get(key, "")`); the
embedding types these fields as strings, so a non-string value reads as
the default. -/
def strOr (v : Option Memory.Json) (d : String) : String :=
  match v with
  | some (.str s) => s
  | _ => d

/-- The `required` name set of `extract_tool_params`
(`mcp/converter.py`): string items of a present `required` list. -/
def requiredSet (v : Option Memory.Json) : List String :=
  match v with
  | some (.arr xs) => xs.toList.filterMap (fun j => match j with
      | .str s => some s
      | _ => none)
  | _ => []

/-- Parameter rows of `extract_tool_params` (`mcp/converter.py`): one
per dict-valued entry of `properties`. -/
def extractProps (required : List String) : Memory.JsonObj → List ToolParam
  | .nil => []
  | .cons name (.obj prop) rest =>
    ⟨name, ((Memory.JsonObj.getKey prop "type").getD (.str "string")),
      ((Memory.JsonObj.getKey prop "description").getD (.str "")),
      required.contains name⟩ :: extractProps required rest
  | .cons _ _ rest => extractProps required rest

/-- `extract_tool_params` (`mcp/converter.py`): no or falsy schema and a
non-dict `properties` give no parameters; a truthy non-dict schema makes
Python's `input_schema.get` raise `AttributeError`. -/
def extract_tool_params : Option Memory.Json → Except String (List ToolParam)
  | none => .ok []
  | some s =>
    if jfalsy s then .ok []
    else
      match s with
      | .obj kvs =>
        match kvs.getKey "properties" with
        | some (.obj pkvs) =>
          .ok (extractProps (requiredSet (kvs.getKey "required")) pkvs)
        | _ => .ok []
      | _ => .error "AttributeError: inputSchema is not a dict"

/-- The converted `ToolDef` for one MCP tool (`mcp/converter.py`):
`mcp.{server}.{tool}` name, `[MCP:{server}]`-prefixed description,
parameters extracted from the schema, and the original `inputSchema`
kept verbatim as `raw_json_schema`. -/
def mkToolDef (server : String) (mt : MCPToolDef) : ToolDef :=
  ⟨mcp_tool_name server mt.name,
   "[MCP:" ++ server ++ "] " ++ mt.description,
   (extract_tool_params mt.input_schema).toOption.getD [],
   true,
   mt.input_schema⟩

/-- Loop body of `convert_mcp_tools` (`mcp/converter.py`): skip filtered
tools, append the converted rest, and break once `max_tools > 0` tools
are accumulated. -/
def convertGo (fnmatch : String → String → Bool) (server : String)
    (config : Option MCPServerConfig) :
    List MCPToolDef → List ToolDef → Except String (List ToolDef)
  | [], acc => .ok acc
  | mt :: rest, acc =>
    if (match config with
        | some c => !(is_tool_allowed fnmatch mt.name c)
        | none => false) then
      convertGo fnmatch server config rest acc
    else
      match extract_tool_params mt.input_schema with
      | .error e => .error e
      | .ok params =>
        let acc2 := acc ++
          [⟨mcp_tool_name server mt.name,
            "[MCP:" ++ server ++ "] " ++ mt.description, params, true, mt.input_schema⟩]
        if (match config with
            | some c => decide (c.max_tools > 0) && decide (acc2.length ≥ c.max_tools)
            | none => false) then
          .ok acc2
        else
          convertGo fnmatch server config rest acc2

/-- `convert_mcp_tools` (`mcp/converter.py`). -/
def convert_mcp_tools (fnmatch : String → String → Bool) (server : String)
    (mcp_tools : List MCPToolDef) (config : Option MCPServerConfig) :
    Except String (List ToolDef) :=
  convertGo fnmatch server config mcp_tools []

/-- One `tools/list` item (`mcp/protocol.py`): dict items yield an
`MCPToolDef`; anything else makes `t.get` raise. -/
def parseItems : List Memory.Json → Except String (List MCPToolDef)
  | [] => .ok []
  | .obj kvs :: rest =>
    match parseItems rest with
    | .error e => .error e
    | .ok tl =>
      .ok (⟨strOr (kvs.getKey "name") "", strOr (kvs.getKey "description") "",
            kvs.getKey "inputSchema"⟩ :: tl)
  | _ :: _ => .error "AttributeError: tool item is not a dict"

/-- `MCPClient.list_tools` response handling (`mcp/protocol.py`): accept
`{tools: [...]}` and bare `[...]`; a missing/None result or payload of
another shape yields the empty list, except that a non-list `tools`
value blows up the iteration. No duplicate-name check is performed. -/
def parseToolsList : Option Memory.Json → Except String (List MCPToolDef)
  | none => .ok []
  | some raw =>
    match raw with
    | .obj kvs =>
      match kvs.getKey "tools" with
      | none => .ok []
      | some .null => .ok []
      | some (.arr xs) => parseItems xs.toList
      | some _ => .error "TypeError: tools value is not iterable tool items"
    | .arr xs => parseItems xs.toList
    | _ => .ok []

end MCP

namespace MCP

/-- The inline-built tool of the conversion loop is `mkToolDef` whenever
parameter extraction succeeds. -/
theorem mkToolDef_of_ok (server : String) (mt : MCPToolDef) (params : List ToolParam)
    (hex : extract_tool_params mt.input_schema = .ok params) :
    (⟨mcp_tool_name server mt.name,
      "[MCP:" ++ server ++ "] " ++ mt.description, params, true, mt.input_schema⟩ : ToolDef)
      = mkToolDef server mt := by
  unfold mkToolDef
  rw [hex]
  rfl

/-- Without a config, every tool is converted in order. -/
theorem convertGo_none (fnmatch : String → String → Bool) (server : String) :
    ∀ (ts : List MCPToolDef) (acc : List ToolDef),
    (∀ mt ∈ ts, (extract_tool_params mt.input_schema).toOption.isSome) →
    convertGo fnmatch server none ts acc = .ok (acc ++ ts.map (mkToolDef server))
  | [], acc, _ => by simp [convertGo]
  | mt :: rest, acc, h => by
    have hmt := h mt (by simp)
    cases hex : extract_tool_params mt.input_schema with
    | error e => rw [hex] at hmt; simp [Except.toOption] at hmt
    | ok params =>
      rw [convertGo, hex]
      simp only [Bool.false_eq_true, if_false]
      rw [mkToolDef_of_ok server mt params hex]
      rw [convertGo_none fnmatch server rest _ (fun m hm => h m (by simp [hm]))]
      simp

/-- With a config but `max_tools = 0`, exactly the filtered tools are
converted in order. -/
theorem convertGo_unlimited (fnmatch : String → String → Bool) (server : String)
    (c : MCPServerConfig) (hmax : c.max_tools = 0) :
    ∀ (ts : List MCPToolDef) (acc : List ToolDef),
    (∀ mt ∈ ts, (extract_tool_params mt.input_schema).toOption.isSome) →
    convertGo fnmatch server (some c) ts acc
      = .ok (acc ++ (ts.filter (fun mt => is_tool_allowed fnmatch mt.name c)).map
          (mkToolDef server))
  | [], acc, _ => by simp [convertGo]
  | mt :: rest, acc, h => by
    have hmt := h mt (by simp)
    by_cases hall : is_tool_allowed fnmatch mt.name c = true
    · cases hex : extract_tool_params mt.input_schema with
      | error e => rw [hex] at hmt; simp [Except.toOption] at hmt
      | ok params =>
        rw [convertGo, hex]
        simp only [hall, Bool.not_true, Bool.false_eq_true, if_false, hmax]
        simp only [show (decide ((0 : Nat) > 0)) = false from rfl, Bool.false_and,
          Bool.false_eq_true, if_false]
        rw [mkToolDef_of_ok server mt params hex]
        rw [convertGo_unlimited fnmatch server c hmax rest _
          (fun m hm => h m (by simp [hm]))]
        rw [List.filter_cons_of_pos (by simpa using hall)]
        simp
    · have hall2 : is_tool_allowed fnmatch mt.name c = false := by
        cases hq : is_tool_allowed fnmatch mt.name c with
        | true => exact absurd hq hall
        | false => rfl
      rw [convertGo]
      simp only [hall2, Bool.not_false, if_true]
      rw [convertGo_unlimited fnmatch server c hmax rest _
        (fun m hm => h m (by simp [hm]))]
      rw [List.filter_cons_of_neg (by simp [hall2])]

/-- With `max_tools > 0`, conversion takes filtered tools until the
budget `max_tools - acc.length` is exhausted. -/
theorem convertGo_limited (fnmatch : String → String → Bool) (server : String)
    (c : MCPServerConfig) :
    ∀ (ts : List MCPToolDef) (acc : List ToolDef),
    (∀ mt ∈ ts, (extract_tool_params mt.input_schema).toOption.isSome) →
    0 < c.max_tools → acc.length < c.max_tools →
    convertGo fnmatch server (some c) ts acc
      = .ok (acc ++ ((ts.filter (fun mt => is_tool_allowed fnmatch mt.name c)).take
          (c.max_tools - acc.length)).map (mkToolDef server))
  | [], acc, _, _, _ => by simp [convertGo]
  | mt :: rest, acc, h, hpos, hlen => by
    have hmt := h mt (by simp)
    by_cases hall : is_tool_allowed fnmatch mt.name c = true
    · cases hex : extract_tool_params mt.input_schema with
      | error e => rw [hex] at hmt; simp [Except.toOption] at hmt
      | ok params =>
        rw [convertGo, hex]
        simp only [hall, Bool.not_true, Bool.false_eq_true, if_false]
        simp only [List.length_append, List.length_cons, List.length_nil]
        by_cases hstop : acc.length + 0 + 1 ≥ c.max_tools
        · have hcond : (decide (c.max_tools > 0) &&
              decide (acc.length + 0 + 1 ≥ c.max_tools)) = true := by
            simp only [Bool.and_eq_true, decide_eq_true_eq]
            exact ⟨hpos, hstop⟩
          rw [if_pos hcond]
          rw [List.filter_cons_of_pos (by simpa using hall)]
          have htake : c.max_tools - acc.length = 1 := by omega
          rw [htake, List.take_succ_cons]
          rw [mkToolDef_of_ok server mt params hex]
          simp
        · have hcond : (decide (c.max_tools > 0) &&
              decide (acc.length + 0 + 1 ≥ c.max_tools)) = false := by
            simp only [Bool.and_eq_false_iff, decide_eq_false_iff_not]
            right
            exact hstop
          rw [hcond]
          simp only [Bool.false_eq_true, if_false]
          rw [mkToolDef_of_ok server mt params hex]
          rw [convertGo_limited fnmatch server c rest _
            (fun m hm => h m (by simp [hm])) hpos
            (by simp only [List.length_append, List.length_cons, List.length_nil]; omega)]
          rw [List.filter_cons_of_pos (by simpa using hall)]
          have htake : c.max_tools - acc.length = (c.max_tools - (acc.length + 1)) + 1 := by
            omega
          rw [htake, List.take_succ_cons]
          simp
    · have hall2 : is_tool_allowed fnmatch mt.name c = false := by
        cases hq : is_tool_allowed fnmatch mt.name c with
        | true => exact absurd hq hall
        | false => rfl
      rw [convertGo]
      simp only [hall2, Bool.not_false, if_true]
      rw [convertGo_limited fnmatch server c rest _
        (fun m hm => h m (by simp [hm])) hpos hlen]
      rw [List.filter_cons_of_neg (by simp [hall2])]

end MCP

namespace MCP

/-- C8: conversion for a configured server converts exactly the tools
whose original MCP name passes the block/allow glob filter, truncated to
`max_tools` after filtering when `max_tools > 0`; each converted tool is
named `mcp.{server}.{tool}` and keeps the original `inputSchema` as its
`raw_json_schema`. (The hypothesis states that every `inputSchema` is
absent, falsy or a dict, i.e. parameter extraction does not raise.) -/
theorem C8_theorem (fnmatch : String → String → Bool) (server : String)
    (mcp_tools : List MCPToolDef) (c : MCPServerConfig)
    (hschema : ∀ mt ∈ mcp_tools, (extract_tool_params mt.input_schema).toOption.isSome) :
    convert_mcp_tools fnmatch server mcp_tools (some c)
      = .ok ((if 0 < c.max_tools
          then (mcp_tools.filter (fun mt => is_tool_allowed fnmatch mt.name c)).take c.max_tools
          else mcp_tools.filter (fun mt => is_tool_allowed fnmatch mt.name c)).map
          (mkToolDef server)) ∧
    ∀ tds, convert_mcp_tools fnmatch server mcp_tools (some c) = .ok tds →
      (0 < c.max_tools → tds.length ≤ c.max_tools) ∧
      ∀ td ∈ tds, ∃ mt ∈ mcp_tools,
        is_tool_allowed fnmatch mt.name c = true ∧
        td.name = "mcp." ++ server ++ "." ++ mt.name ∧
        td.raw_json_schema = mt.input_schema := by
  have hmain : convert_mcp_tools fnmatch server mcp_tools (some c)
      = .ok ((if 0 < c.max_tools
          then (mcp_tools.filter (fun mt => is_tool_allowed fnmatch mt.name c)).take c.max_tools
          else mcp_tools.filter (fun mt => is_tool_allowed fnmatch mt.name c)).map
          (mkToolDef server)) := by
    by_cases hpos : 0 < c.max_tools
    · rw [if_pos hpos]
      unfold convert_mcp_tools
      have h := convertGo_limited fnmatch server c mcp_tools [] hschema hpos
        (by simpa using hpos)
      simpa using h
    · rw [if_neg hpos]
      unfold convert_mcp_tools
      have hmax : c.max_tools = 0 := by omega
      simpa using convertGo_unlimited fnmatch server c hmax mcp_tools [] hschema
  refine ⟨hmain, ?_⟩
  intro tds htds
  rw [hmain] at htds
  have htds2 := (Except.ok.inj htds).symm
  subst htds2
  constructor
  · intro hpos
    rw [if_pos hpos, List.length_map]
    exact List.length_take_le _ _
  · intro td htd
    rw [List.mem_map] at htd
    obtain ⟨mt, hmt, hmk⟩ := htd
    have hmem2 : mt ∈ mcp_tools.filter (fun mt => is_tool_allowed fnmatch mt.name c) := by
      by_cases hpos : 0 < c.max_tools
      · rw [if_pos hpos] at hmt
        exact List.take_subset _ _ hmt
      · rwa [if_neg hpos] at hmt
    rw [List.mem_filter] at hmem2
    refine ⟨mt, hmem2.1, by simpa using hmem2.2, ?_, ?_⟩
    · rw [← hmk]
      rfl
    · rw [← hmk]
      rfl

/-- C8 witness: with `allowed_tools = ["read_file"]`, `write_file` is
filtered out and `read_file` is converted. -/
theorem C8_witness :
    convert_mcp_tools (fun n p => n == p) "fs"
        [⟨"read_file", "r", none⟩, ⟨"write_file", "w", none⟩]
        (some ⟨["read_file"], [], 0⟩)
      = .ok ((if 0 < (MCPServerConfig.mk ["read_file"] [] 0).max_tools
          then (([⟨"read_file", "r", none⟩, ⟨"write_file", "w", none⟩] :
              List MCPToolDef).filter (fun mt =>
                is_tool_allowed (fun n p => n == p) mt.name ⟨["read_file"], [], 0⟩)).take
              (MCPServerConfig.mk ["read_file"] [] 0).max_tools
          else ([⟨"read_file", "r", none⟩, ⟨"write_file", "w", none⟩] :
              List MCPToolDef).filter (fun mt =>
                is_tool_allowed (fun n p => n == p) mt.name ⟨["read_file"], [], 0⟩)).map
          (mkToolDef "fs")) ∧
    ∀ tds, convert_mcp_tools (fun n p => n == p) "fs"
        [⟨"read_file", "r", none⟩, ⟨"write_file", "w", none⟩]
        (some ⟨["read_file"], [], 0⟩) = .ok tds →
      (0 < (MCPServerConfig.mk ["read_file"] [] 0).max_tools →
        tds.length ≤ (MCPServerConfig.mk ["read_file"] [] 0).max_tools) ∧
      ∀ td ∈ tds, ∃ mt ∈ ([⟨"read_file", "r", none⟩, ⟨"write_file", "w", none⟩] :
          List MCPToolDef),
        is_tool_allowed (fun n p => n == p) mt.name ⟨["read_file"], [], 0⟩ = true ∧
        td.name = "mcp." ++ "fs" ++ "." ++ mt.name ∧
        td.raw_json_schema = mt.input_schema :=
  C8_theorem (fun n p => n == p) "fs"
    [⟨"read_file", "r", none⟩, ⟨"write_file", "w", none⟩]
    ⟨["read_file"], [], 0⟩ (by decide)

/-- C9 counterexample: a `tools/list` payload naming `dup` twice is
parsed into two `MCPToolDef`s and converted into two `ToolDef`s with the
same SDK name — discovery/conversion does not fail on the duplicate. -/
theorem C9_counterexample :
    parseToolsList (some (.obj (.ofList [("tools", .arr (.ofList
        [.obj (.ofList [("name", .str "dup")]),
         .obj (.ofList [("name", .str "dup")])]))])))
      = .ok [⟨"dup", "", none⟩, ⟨"dup", "", none⟩] ∧
    (convert_mcp_tools (fun _ _ => false) "s"
        [⟨"dup", "", none⟩, ⟨"dup", "", none⟩] none).toOption.map
        (List.map ToolDef.name)
      = some ["mcp.s.dup", "mcp.s.dup"] := by decide

/-- C9 (amended): duplicates within one server are tolerated — each
discovered tool, duplicate names included, is converted to exactly one
`ToolDef`, so two same-named MCP tools yield two converted tools with
the same `mcp.{server}.{tool}` name and no error. -/
theorem C9_theorem (fnmatch : String → String → Bool) (server : String)
    (ts : List MCPToolDef)
    (hschema : ∀ mt ∈ ts, (extract_tool_params mt.input_schema).toOption.isSome) :
    convert_mcp_tools fnmatch server ts none = .ok (ts.map (mkToolDef server)) ∧
    (convert_mcp_tools fnmatch server ts none).toOption.map (List.map ToolDef.name)
      = some (ts.map (fun mt => "mcp." ++ server ++ "." ++ mt.name)) := by
  have h := convertGo_none fnmatch server ts [] hschema
  have hmain : convert_mcp_tools fnmatch server ts none = .ok (ts.map (mkToolDef server)) := by
    unfold convert_mcp_tools
    simpa using h
  refine ⟨hmain, ?_⟩
  rw [hmain]
  simp [Except.toOption, mkToolDef, mcp_tool_name]

/-- C9 witness: the duplicate pair from the counterexample, converted
through the amended statement. -/
theorem C9_witness :
    convert_mcp_tools (fun _ _ => false) "s"
        [⟨"dup", "", none⟩, ⟨"dup", "", none⟩] none
      = .ok (([⟨"dup", "", none⟩, ⟨"dup", "", none⟩] : List MCPToolDef).map
          (mkToolDef "s")) ∧
    (convert_mcp_tools (fun _ _ => false) "s"
        [⟨"dup", "", none⟩, ⟨"dup", "", none⟩] none).toOption.map
        (List.map ToolDef.name)
      = some (([⟨"dup", "", none⟩, ⟨"dup", "", none⟩] : List MCPToolDef).map
          (fun mt => "mcp." ++ "s" ++ "." ++ mt.name)) :=
  C9_theorem (fun _ _ => false) "s" [⟨"dup", "", none⟩, ⟨"dup", "", none⟩] (by decide)

end MCP

namespace Scheduler

/-- The `_sent_today` dict of `InMemoryUserStore`
(`proactive/scheduler.py`): `(user_id, trigger_name) -> date string`. -/
structure UserStoreState where
  sent_today : List ((String × String) × String)
deriving DecidableEq, Repr

/-- Lookup of the last sent date for a (user, trigger) pair. -/
def sentLookup (s : UserStoreState) (user trig : String) : Option String :=
  (s.sent_today.find? (fun e => e.1 = (user, trig))).map (·.2)

/-- `InMemoryUserStore.already_sent_today` (`proactive/scheduler.py`):
the stored date string equals today's. -/
def already_sent_today (s : UserStoreState) (user trig today : String) : Bool :=
  sentLookup s user trig == some today

/-- Dict assignment for `record_sent`: replace in place or append. -/
def setPair : List ((String × String) × String) → (String × String) → String →
    List ((String × String) × String)
  | [], k, d => [(k, d)]
  | e :: rest, k, d =>
    if e.1 = k then (k, d) :: rest else e :: setPair rest k d

/-- `InMemoryUserStore.record_sent` (`proactive/scheduler.py`); the
recorded `sent_at.date().isoformat()` of the tick is its `today`. -/
def record_sent (s : UserStoreState) (user trig date : String) : UserStoreState :=
  ⟨setPair s.sent_today (user, trig) date⟩

/-- Environment of one `_run_trigger` call (`proactive/scheduler.py`):
the trigger's check outcome, whether a `message_fn` is registered, the
per-user message outcome (`.error` = the coroutine raised), and the
injected send callback (`none` = not configured; `some f` with
`f u = some e` = the callback raises `e`, swallowed by `_send`). -/
structure TriggerEnv where
  check_result : Except String (List String)
  hasMessageFn : Bool
  message : String → Except String (Option String)
  send_fn : Option (String → Option String)

/-- `ProactiveScheduler._send` (`proactive/scheduler.py`): without a
callback nothing is attempted (a warning is logged); with one, the call
is attempted and any exception is logged and swallowed. The returned
list tracks delivery attempts. -/
def sendStep (env : TriggerEnv) (user : String) (attempts : List String) : List String :=
  match env.send_fn with
  | none => attempts
  | some _ => attempts ++ [user]

/-- Per-user loop of `ProactiveScheduler._run_trigger`
(`proactive/scheduler.py`): skip users already sent today, skip falsy
message text (`None` or `""`), otherwise send (failures swallowed) and
record; an exception from `message_fn` aborts the remaining users (it is
caught by the trigger-level `except`). -/
def runUsers (env : TriggerEnv) (name today : String) :
    List String → UserStoreState → List String → UserStoreState × List String
  | [], st, attempts => (st, attempts)
  | u :: rest, st, attempts =>
    if already_sent_today st u name today then
      runUsers env name today rest st attempts
    else
      match env.message u with
      | .error _ => (st, attempts)
      | .ok none => runUsers env name today rest st attempts
      | .ok (some text) =>
        if text = "" then runUsers env name today rest st attempts
        else
          runUsers env name today rest (record_sent st u name today)
            (sendStep env u attempts)

/-- `ProactiveScheduler._run_trigger` (`proactive/scheduler.py`): a
raised check, an empty user list, or a missing `message_fn` do nothing. -/
def run_trigger (env : TriggerEnv) (name today : String) (st : UserStoreState) :
    UserStoreState × List String :=
  match env.check_result with
  | .error _ => (st, [])
  | .ok users =>
    if users.isEmpty then (st, [])
    else if env.hasMessageFn = false then (st, [])
    else runUsers env name today users st []

end Scheduler

namespace Scheduler

/-- Recording makes the pair map to the recorded date. -/
theorem sentLookup_record_self : ∀ (s : List ((String × String) × String))
    (u n d : String),
    sentLookup ⟨setPair s (u, n) d⟩ u n = some d
  | [], u, n, d => by simp [sentLookup, setPair]
  | e :: rest, u, n, d => by
    by_cases h : e.1 = (u, n)
    · simp [sentLookup, setPair, h]
    · simp only [setPair, h, if_false]
      have ih := sentLookup_record_self rest u n d
      simp [sentLookup, List.find?_cons, h] at ih ⊢
      exact ih

/-- Recording one pair leaves other pairs unchanged. -/
theorem sentLookup_record_ne (s : UserStoreState) (u2 n2 u n d : String)
    (h : (u2, n2) ≠ (u, n)) :
    sentLookup (record_sent s u2 n2 d) u n = sentLookup s u n := by
  unfold record_sent
  obtain ⟨l⟩ := s
  induction l with
  | nil => simp [sentLookup, setPair, h]
  | cons e rest ih =>
    by_cases he : e.1 = (u2, n2)
    · simp [sentLookup, setPair, he, h, List.find?_cons]
    · simp only [setPair, he, if_false]
      simp [sentLookup, List.find?_cons] at ih ⊢
      by_cases h3 : e.1 = (u, n)
      · simp [h3]
      · simp [h3]
        exact ih

/-- The per-user loop never unsets a pair recorded for today. -/
theorem runUsers_preserves (env : TriggerEnv) (name today u : String) :
    ∀ (users : List String) (st : UserStoreState) (attempts : List String),
    sentLookup st u name = some today →
    sentLookup (runUsers env name today users st attempts).1 u name = some today
  | [], _, _, h => h
  | w :: rest, st, attempts, h => by
    rw [runUsers]
    by_cases hd : already_sent_today st w name today = true
    · rw [if_pos hd]
      exact runUsers_preserves env name today u rest st attempts h
    · rw [if_neg hd]
      cases hm : env.message w with
      | error e => exact h
      | ok r =>
        cases r with
        | none => exact runUsers_preserves env name today u rest st attempts h
        | some text =>
          dsimp only
          by_cases htx : text = ""
          · rw [if_pos htx]
            exact runUsers_preserves env name today u rest st attempts h
          · rw [if_neg htx]
            by_cases hw : w = u
            · refine runUsers_preserves env name today u rest _ _ ?_
              rw [hw]
              exact sentLookup_record_self st.sent_today u name today
            · refine runUsers_preserves env name today u rest _ _ ?_
              rw [sentLookup_record_ne st w name u name today (by simp [hw])]
              exact h

/-- After the loop reaches a user whose message is a non-empty string,
that user is recorded for today (whether or not the send succeeded). -/
theorem runUsers_records (env : TriggerEnv) (name today u t : String)
    (us₂ : List String) (hmsg : env.message u = .ok (some t)) (ht : t ≠ "") :
    ∀ (us₁ : List String) (st : UserStoreState) (attempts : List String),
    (∀ w ∈ us₁, ∃ r, env.message w = .ok r) →
    sentLookup (runUsers env name today (us₁ ++ u :: us₂) st attempts).1 u name
      = some today
  | [], st, attempts, _ => by
    rw [List.nil_append, runUsers]
    by_cases hd : already_sent_today st u name today = true
    · rw [if_pos hd]
      refine runUsers_preserves env name today u us₂ st attempts ?_
      unfold already_sent_today at hd
      exact eq_of_beq hd
    · rw [if_neg hd, hmsg]
      dsimp only
      rw [if_neg ht]
      refine runUsers_preserves env name today u us₂ _ _ ?_
      exact sentLookup_record_self st.sent_today u name today
  | w :: us₁, st, attempts, hpre => by
    rw [List.cons_append, runUsers]
    by_cases hd : already_sent_today st w name today = true
    · rw [if_pos hd]
      exact runUsers_records env name today u t us₂ hmsg ht us₁ st attempts
        (fun m hm => hpre m (by simp [hm]))
    · rw [if_neg hd]
      obtain ⟨r, hr⟩ := hpre w (by simp)
      rw [hr]
      cases r with
      | none =>
        exact runUsers_records env name today u t us₂ hmsg ht us₁ st attempts
          (fun m hm => hpre m (by simp [hm]))
      | some text =>
        dsimp only
        by_cases htx : text = ""
        · rw [if_pos htx]
          exact runUsers_records env name today u t us₂ hmsg ht us₁ st attempts
            (fun m hm => hpre m (by simp [hm]))
        · rw [if_neg htx]
          exact runUsers_records env name today u t us₂ hmsg ht us₁ _ _
            (fun m hm => hpre m (by simp [hm]))

/-- A user recorded for today is skipped by the loop: no delivery
attempt is made for them. -/
theorem runUsers_no_attempt (env : TriggerEnv) (name today u : String) :
    ∀ (users : List String) (st : UserStoreState) (attempts : List String),
    sentLookup st u name = some today → u ∉ attempts →
    u ∉ (runUsers env name today users st attempts).2
  | [], _, _, _, hna => hna
  | w :: rest, st, attempts, h, hna => by
    rw [runUsers]
    by_cases hd : already_sent_today st w name today = true
    · rw [if_pos hd]
      exact runUsers_no_attempt env name today u rest st attempts h hna
    · rw [if_neg hd]
      cases hm : env.message w with
      | error e => exact hna
      | ok r =>
        cases r with
        | none => exact runUsers_no_attempt env name today u rest st attempts h hna
        | some text =>
          dsimp only
          by_cases htx : text = ""
          · rw [if_pos htx]
            exact runUsers_no_attempt env name today u rest st attempts h hna
          · rw [if_neg htx]
            have hw : w ≠ u := by
              intro he
              subst he
              apply hd
              unfold already_sent_today
              rw [h]
              simp
            refine runUsers_no_attempt env name today u rest _ _ ?_ ?_
            · rw [sentLookup_record_ne st w name u name today (by simp [hw])]
              exact h
            · unfold sendStep
              cases env.send_fn with
              | none => exact hna
              | some f =>
                simp only [List.mem_append, List.mem_singleton]
                rintro (hin | hin)
                · exact hna hin
                · exact hw hin.symm

end Scheduler

namespace Scheduler

/-- C10 counterexample: a produced empty-string message is non-nil yet
is skipped by `if not text`, so nothing is recorded and nothing is sent
— refuting the claim for every non-nil message. -/
theorem C10_counterexample :
    run_trigger
        ⟨.ok ["u1"], true, fun _ => .ok (some ""), some (fun _ => none)⟩
        "morning" "2026-10-12" ⟨[]⟩
      = (⟨[]⟩, []) ∧
    sentLookup (run_trigger
        ⟨.ok ["u1"], true, fun _ => .ok (some ""), some (fun _ => none)⟩
        "morning" "2026-10-12" ⟨[]⟩).1 "u1" "morning" = none := by decide

/-- C10 (amended): for every tick in which the check returns a user list
reaching `u` (no earlier user's message coroutine raises) and `u`'s
message is a non-nil, non-empty string, the scheduler records
`(u, trigger, today)` — for every send configuration, including a
raising callback or none at all; consequently a second tick on the same
date makes no delivery attempt for `u`, and on any other date the dedup
check is clear again. -/
theorem C10_theorem (env : TriggerEnv) (name today : String) (st : UserStoreState)
    (us₁ us₂ : List String) (u t : String)
    (hcheck : env.check_result = .ok (us₁ ++ u :: us₂))
    (hmf : env.hasMessageFn = true)
    (hpre : ∀ w ∈ us₁, ∃ r, env.message w = .ok r)
    (hmsg : env.message u = .ok (some t)) (ht : t ≠ "") :
    sentLookup (run_trigger env name today st).1 u name = some today ∧
    (∀ env2 : TriggerEnv, u ∉ (run_trigger env2 name today (run_trigger env name today st).1).2) ∧
    (∀ d, d ≠ today → already_sent_today (run_trigger env name today st).1 u name d = false) := by
  have hrun : run_trigger env name today st
      = runUsers env name today (us₁ ++ u :: us₂) st [] := by
    unfold run_trigger
    rw [hcheck]
    dsimp only
    have hne : (us₁ ++ u :: us₂).isEmpty = false := by
      cases us₁ <;> rfl
    rw [hne, hmf]
    rfl
  have hrec : sentLookup (run_trigger env name today st).1 u name = some today := by
    rw [hrun]
    exact runUsers_records env name today u t us₂ hmsg ht us₁ st [] hpre
  refine ⟨hrec, ?_, ?_⟩
  · intro env2
    unfold run_trigger
    cases hc2 : env2.check_result with
    | error e => simp
    | ok users =>
      dsimp only
      by_cases hne : users.isEmpty = true
      · rw [if_pos hne]
        simp
      · rw [if_neg hne]
        by_cases hmf2 : env2.hasMessageFn = false
        · rw [if_pos hmf2]
          simp
        · rw [if_neg hmf2]
          exact runUsers_no_attempt env2 name today u users _ [] hrec
            (by simp)
  · intro d hd
    unfold already_sent_today
    rw [hrec]
    simp
    exact fun h => hd h.symm

/-- C10 witness: a raising send callback still records the user. -/
theorem C10_witness :
    sentLookup (run_trigger
        ⟨.ok ["w1", "u1"], true,
         fun s => if s = "u1" then .ok (some "hello") else .ok none,
         some (fun _ => some "boom")⟩
        "morning" "2026-10-12" ⟨[]⟩).1 "u1" "morning" = some "2026-10-12" ∧
    (∀ env2 : TriggerEnv, "u1" ∉ (run_trigger env2 "morning" "2026-10-12"
        (run_trigger
          ⟨.ok ["w1", "u1"], true,
           fun s => if s = "u1" then .ok (some "hello") else .ok none,
           some (fun _ => some "boom")⟩
          "morning" "2026-10-12" ⟨[]⟩).1).2) ∧
    (∀ d, d ≠ "2026-10-12" → already_sent_today (run_trigger
        ⟨.ok ["w1", "u1"], true,
         fun s => if s = "u1" then .ok (some "hello") else .ok none,
         some (fun _ => some "boom")⟩
        "morning" "2026-10-12" ⟨[]⟩).1 "u1" "morning" d = false) :=
  C10_theorem
    ⟨.ok ["w1", "u1"], true,
     fun s => if s = "u1" then .ok (some "hello") else .ok none,
     some (fun _ => some "boom")⟩
    "morning" "2026-10-12" ⟨[]⟩ ["w1"] [] "u1" "hello"
    (by decide)
    (by decide)
    (by
      intro w hw
      simp at hw
      subst hw
      exact ⟨none, by decide⟩)
    (by decide)
    (by decide)

end Scheduler

namespace AgentLoop

/-- `AgentHooks` (`loop.py`): the six optional async callbacks of the
loop, each of which may raise (`.error` = the awaited hook raised, with
the exception text). An absent (`None`) hook is the always-`ok`
function. Hooks are indexed by the data the call site passes that the
embedding models: the turn number for the LLM hooks (the message list
and response are deterministic functions of the run), tool name /
arguments / result / error for the tool hooks, the turn record for
`on_turn_end`, and the exception text for `on_error`. -/
structure Hooks where
  on_llm_start : Nat → Except String Unit
  on_llm_end : Nat → Except String Unit
  on_tool_start : String → String → Except String Unit
  on_tool_end : String → String → Option String → Except String Unit
  on_turn_end : TurnRecord → Except String Unit
  on_error : String → Except String Unit

/-- The default `AgentHooks()` (`loop.py`): every hook `None`, so every
call site is a no-op that cannot raise. -/
def defaultHooks : Hooks :=
  ⟨fun _ => .ok (), fun _ => .ok (), fun _ _ => .ok (),
   fun _ _ _ => .ok (), fun _ => .ok (), fun _ => .ok ()⟩

/-- A hook configuration none of whose callbacks ever raises (true of
the default hooks and of any well-behaved observer). -/
def NeverRaises (hooks : Hooks) : Prop :=
  (∀ t, hooks.on_llm_start t = .ok ()) ∧
  (∀ t, hooks.on_llm_end t = .ok ()) ∧
  (∀ n a, hooks.on_tool_start n a = .ok ()) ∧
  (∀ n r e, hooks.on_tool_end n r e = .ok ()) ∧
  (∀ tr, hooks.on_turn_end tr = .ok ()) ∧
  (∀ e, hooks.on_error e = .ok ())

/-- The `except` handler of `AgentLoop.run` (`loop.py`): fire `on_error`
(whose own raise propagates out of `run`), then stop with
`stopped_reason = "error"` and the exception text; turns and counts keep
whatever the aborted turn had already committed. -/
def errorPath (hooks : Hooks) (acc : List TurnRecord) (cnt tn : Nat) (e : String) :
    Except String AgentResult :=
  match hooks.on_error e with
  | .error e2 => .error e2
  | .ok _ =>
    .ok { final_output := "Error: " ++ e
          turns := acc
          tool_calls_count := cnt
          total_turns := tn
          stopped_reason := "error" }

/-- The per-turn tool loop of `AgentLoop.run` (`loop.py`) with its two
hook call sites: `on_tool_start` before dispatch and `on_tool_end`
after it, each of which may raise; the record is appended to the turn
and the global count incremented only after `on_tool_end` returns.
On a raise the already-committed count `k` travels with the error. -/
def runTools (hooks : Hooks) (execTool : String → String → Except String String) :
    List ToolCall → List ToolCallRecord → Nat →
    Except (String × Nat) (List ToolCallRecord × Nat)
  | [], recs, k => .ok (recs, k)
  | c :: rest, recs, k =>
    match hooks.on_tool_start c.name c.arguments with
    | .error e => .error (e, k)
    | .ok _ =>
      match hooks.on_tool_end c.name (execCall execTool c).result (execCall execTool c).error with
      | .error e => .error (e, k)
      | .ok _ => runTools hooks execTool rest (recs ++ [execCall execTool c]) (k + 1)

/-- Body of `AgentLoop.run` (`loop.py`) with all six hook call sites:
`on_llm_start` → LLM call → `on_llm_end` → either the final-output path
(record the final turn, then `on_turn_end`) or the tool loop followed by
recording the turn and `on_turn_end`. Any raise inside the turn lands in
`errorPath`; note that a raise after some tool calls of the turn were
counted but before the turn is recorded leaves the count ahead of the
recorded turns. -/
def runAuxWithHooks (llm : Nat → LLMResponse)
    (execTool : String → String → Except String String) (hooks : Hooks) :
    Nat → Nat → List TurnRecord → Nat → Except String AgentResult
  | 0, tn, acc, cnt => .ok (maxTurnsResult tn acc cnt)
  | fuel + 1, tn, acc, cnt =>
    match hooks.on_llm_start (tn + 1) with
    | .error e => errorPath hooks acc cnt (tn + 1) e
    | .ok _ =>
      match llm (tn + 1) with
      | .raise m => errorPath hooks acc cnt (tn + 1) m
      | .reply content calls =>
        match hooks.on_llm_end (tn + 1) with
        | .error e => errorPath hooks acc cnt (tn + 1) e
        | .ok _ =>
          if calls.isEmpty then
            match hooks.on_turn_end ⟨tn + 1, content, [], true⟩ with
            | .error e => errorPath hooks (acc ++ [⟨tn + 1, content, [], true⟩]) cnt (tn + 1) e
            | .ok _ =>
              .ok { final_output := content.getD ""
                    turns := acc ++ [⟨tn + 1, content, [], true⟩]
                    tool_calls_count := cnt
                    total_turns := tn + 1
                    stopped_reason := "completed" }
          else
            match runTools hooks execTool calls [] 0 with
            | .error (e, k) => errorPath hooks acc (cnt + k) (tn + 1) e
            | .ok (recs, k) =>
              match hooks.on_turn_end ⟨tn + 1, content, recs, false⟩ with
              | .error e =>
                errorPath hooks (acc ++ [⟨tn + 1, content, recs, false⟩]) (cnt + k) (tn + 1) e
              | .ok _ =>
                runAuxWithHooks llm execTool hooks fuel (tn + 1)
                  (acc ++ [⟨tn + 1, content, recs, false⟩]) (cnt + k)

/-- `AgentLoop.run` (`loop.py`) with hooks; `.error` is an exception
escaping `run` itself (only a raising `on_error` hook can cause it). -/
def runWithHooks (llm : Nat → LLMResponse)
    (execTool : String → String → Except String String) (hooks : Hooks)
    (max_turns : Nat) : Except String AgentResult :=
  runAuxWithHooks llm execTool hooks max_turns 0 [] 0

end AgentLoop

namespace AgentLoop

/-- An `.ok` outcome of `errorPath` is exactly the error record. -/
theorem errorPath_ok (hooks : Hooks) (acc : List TurnRecord) (cnt tn : Nat) (e : String)
    (r : AgentResult) (h : errorPath hooks acc cnt tn e = .ok r) :
    r = { final_output := "Error: " ++ e, turns := acc, tool_calls_count := cnt,
          total_turns := tn, stopped_reason := "error" } := by
  unfold errorPath at h
  split at h
  · cases h
  · injection h with h2
    exact h2.symm

/-- When `on_error` does not raise, `errorPath` returns the error record. -/
theorem errorPath_of_ok (hooks : Hooks) (h6 : ∀ e, hooks.on_error e = .ok ())
    (acc : List TurnRecord) (cnt tn : Nat) (e : String) :
    errorPath hooks acc cnt tn e =
      .ok { final_output := "Error: " ++ e, turns := acc, tool_calls_count := cnt,
            total_turns := tn, stopped_reason := "error" } := by
  unfold errorPath
  rw [h6]

/-- The tool loop advances the global count by exactly the number of
records it appends, for every hook configuration. -/
theorem runTools_len (hooks : Hooks) (execTool : String → String → Except String String)
    (calls : List ToolCall) :
    ∀ (recs0 : List ToolCallRecord) (k0 : Nat) (recs : List ToolCallRecord) (k : Nat),
    runTools hooks execTool calls recs0 k0 = .ok (recs, k) →
    k + recs0.length = k0 + recs.length := by
  induction calls with
  | nil =>
    intro recs0 k0 recs k h
    unfold runTools at h
    injection h with h2
    rw [Prod.mk.injEq] at h2
    rw [h2.1, h2.2]
  | cons c rest ih =>
    intro recs0 k0 recs k h
    unfold runTools at h
    split at h
    · cases h
    · split at h
      · cases h
      · have := ih (recs0 ++ [execCall execTool c]) (k0 + 1) recs k h
        simp only [List.length_append, List.length_cons, List.length_nil] at this ⊢
        omega

/-- When the tool hooks never raise, the tool loop behaves exactly like
the hook-free dispatch: it appends one `execCall` record per call and
counts every call. -/
theorem runTools_ok (hooks : Hooks)
    (h3 : ∀ n a, hooks.on_tool_start n a = .ok ())
    (h4 : ∀ n r e, hooks.on_tool_end n r e = .ok ())
    (execTool : String → String → Except String String) :
    ∀ (calls : List ToolCall) (recs : List ToolCallRecord) (k : Nat),
    runTools hooks execTool calls recs k =
      .ok (recs ++ calls.map (execCall execTool), k + calls.length) := by
  intro calls
  induction calls with
  | nil =>
    intro recs k
    simp [runTools]
  | cons c rest ih =>
    intro recs k
    rw [runTools, h3, h4, ih]
    simp only [List.map_cons, List.length_cons, List.append_assoc, List.singleton_append,
      Except.ok.injEq, Prod.mk.injEq, true_and, and_true]
    omega

/-- The default hooks never raise. -/
theorem defaultHooks_neverRaises : NeverRaises defaultHooks :=
  ⟨fun _ => rfl, fun _ => rfl, fun _ _ => rfl, fun _ _ _ => rfl, fun _ => rfl, fun _ => rfl⟩

/-- Under the default hooks the hook-aware loop body returns normally and
agrees with the hook-free specialization `runAux`. -/
theorem runAuxWithHooks_default (llm : Nat → LLMResponse)
    (execTool : String → String → Except String String) :
    ∀ (fuel tn : Nat) (acc : List TurnRecord) (cnt : Nat),
    runAuxWithHooks llm execTool defaultHooks fuel tn acc cnt =
      .ok (runAux llm execTool fuel tn acc cnt) := by
  intro fuel
  induction fuel with
  | zero =>
    intro tn acc cnt
    rfl
  | succ fuel ih =>
    intro tn acc cnt
    rw [runAuxWithHooks, runAux]
    cases hr : llm (tn + 1) with
    | raise m => rfl
    | reply content calls =>
      cases hc : calls.isEmpty with
      | true =>
        simp only [hc, if_true]
        rfl
      | false =>
        simp only [hc, Bool.false_eq_true, if_false]
        have hrt := runTools_ok defaultHooks (fun _ _ => rfl) (fun _ _ _ => rfl)
          execTool calls [] 0
        rw [hrt]
        simp only [List.nil_append, Nat.zero_add]
        exact ih (tn + 1) (acc ++ [⟨tn + 1, content, calls.map (execCall execTool), false⟩])
          (cnt + calls.length)

/-- `run` is the default-hooks case of `runWithHooks`. -/
theorem run_eq_runWithHooks_default (llm : Nat → LLMResponse)
    (execTool : String → String → Except String String) (max_turns : Nat) :
    runWithHooks llm execTool defaultHooks max_turns = .ok (run llm execTool max_turns) :=
  runAuxWithHooks_default llm execTool max_turns 0 [] 0

/-- Turn bound and completed-shape invariant of the hook-aware loop body,
for every hook configuration: a normal return uses at most `fuel` more
turns, and a `"completed"` stop ends in a recorded final turn with no
tool calls. -/
theorem runAuxWithHooks_bound (llm : Nat → LLMResponse)
    (execTool : String → String → Except String String) (hooks : Hooks) :
    ∀ (fuel tn : Nat) (acc : List TurnRecord) (cnt : Nat) (r : AgentResult),
    runAuxWithHooks llm execTool hooks fuel tn acc cnt = .ok r →
    r.total_turns ≤ tn + fuel ∧
    (r.stopped_reason = "completed" →
      ∃ tr, r.turns.getLast? = some tr ∧ tr.is_final = true ∧ tr.tool_calls = []) := by
  intro fuel
  induction fuel with
  | zero =>
    intro tn acc cnt r h
    injection h with h2
    subst h2
    refine ⟨Nat.le_refl tn, ?_⟩
    intro hc
    exact absurd (show ("max_turns" : String) = "completed" from hc) (by decide)
  | succ fuel ih =>
    intro tn acc cnt r h
    rw [runAuxWithHooks] at h
    cases hs1 : hooks.on_llm_start (tn + 1) with
    | error e =>
      rw [hs1] at h
      dsimp only at h
      have hr := errorPath_ok _ _ _ _ _ _ h
      subst hr
      exact ⟨show tn + 1 ≤ tn + (fuel + 1) by omega,
        fun hc => absurd (show ("error" : String) = "completed" from hc) (by decide)⟩
    | ok u1 =>
      rw [hs1] at h
      dsimp only at h
      cases hllm : llm (tn + 1) with
      | raise m =>
        rw [hllm] at h
        dsimp only at h
        have hr := errorPath_ok _ _ _ _ _ _ h
        subst hr
        exact ⟨show tn + 1 ≤ tn + (fuel + 1) by omega,
          fun hc => absurd (show ("error" : String) = "completed" from hc) (by decide)⟩
      | reply content calls =>
        rw [hllm] at h
        dsimp only at h
        cases hs2 : hooks.on_llm_end (tn + 1) with
        | error e =>
          rw [hs2] at h
          dsimp only at h
          have hr := errorPath_ok _ _ _ _ _ _ h
          subst hr
          exact ⟨show tn + 1 ≤ tn + (fuel + 1) by omega,
            fun hc => absurd (show ("error" : String) = "completed" from hc) (by decide)⟩
        | ok u2 =>
          rw [hs2] at h
          dsimp only at h
          cases hc : calls.isEmpty with
          | true =>
            rw [hc] at h
            simp only [if_true] at h
            cases ht : hooks.on_turn_end ⟨tn + 1, content, [], true⟩ with
            | error e =>
              rw [ht] at h
              dsimp only at h
              have hr := errorPath_ok _ _ _ _ _ _ h
              subst hr
              exact ⟨show tn + 1 ≤ tn + (fuel + 1) by omega,
                fun hc2 => absurd (show ("error" : String) = "completed" from hc2) (by decide)⟩
            | ok u3 =>
              rw [ht] at h
              dsimp only at h
              injection h with h2b
              subst h2b
              refine ⟨show tn + 1 ≤ tn + (fuel + 1) by omega, fun _ => ?_⟩
              exact ⟨⟨tn + 1, content, [], true⟩, by rw [List.getLast?_concat], rfl, rfl⟩
          | false =>
            rw [hc] at h
            simp only [Bool.false_eq_true, if_false] at h
            cases hrt : runTools hooks execTool calls [] 0 with
            | error ek =>
              obtain ⟨e, k⟩ := ek
              rw [hrt] at h
              dsimp only at h
              have hr := errorPath_ok _ _ _ _ _ _ h
              subst hr
              exact ⟨show tn + 1 ≤ tn + (fuel + 1) by omega,
                fun hc2 => absurd (show ("error" : String) = "completed" from hc2) (by decide)⟩
            | ok rk =>
              obtain ⟨recs, k⟩ := rk
              rw [hrt] at h
              dsimp only at h
              cases ht : hooks.on_turn_end ⟨tn + 1, content, recs, false⟩ with
              | error e =>
                rw [ht] at h
                dsimp only at h
                have hr := errorPath_ok _ _ _ _ _ _ h
                subst hr
                exact ⟨show tn + 1 ≤ tn + (fuel + 1) by omega,
                  fun hc2 => absurd (show ("error" : String) = "completed" from hc2) (by decide)⟩
              | ok u3 =>
                rw [ht] at h
                dsimp only at h
                have hrec := ih (tn + 1) (acc ++ [⟨tn + 1, content, recs, false⟩]) (cnt + k) r h
                have h1b := hrec.1
                exact ⟨by omega, hrec.2⟩

/-- Count invariant of the hook-aware loop body: when no hook raises,
the global tool-call count stays equal to the sum over recorded turns. -/
theorem runAuxWithHooks_count (llm : Nat → LLMResponse)
    (execTool : String → String → Except String String) (hooks : Hooks)
    (hnr : NeverRaises hooks) :
    ∀ (fuel tn : Nat) (acc : List TurnRecord) (cnt : Nat) (r : AgentResult),
    cnt = sumToolCalls acc →
    runAuxWithHooks llm execTool hooks fuel tn acc cnt = .ok r →
    r.tool_calls_count = sumToolCalls r.turns := by
  obtain ⟨h1, h2, h3, h4, h5, h6⟩ := hnr
  intro fuel
  induction fuel with
  | zero =>
    intro tn acc cnt r hcnt h
    injection h with h2b
    subst h2b
    exact hcnt
  | succ fuel ih =>
    intro tn acc cnt r hcnt h
    rw [runAuxWithHooks] at h
    rw [h1] at h
    dsimp only at h
    cases hllm : llm (tn + 1) with
    | raise m =>
      rw [hllm] at h
      dsimp only at h
      rw [errorPath_of_ok hooks h6] at h
      injection h with h2b
      subst h2b
      exact hcnt
    | reply content calls =>
      rw [hllm] at h
      dsimp only at h
      rw [h2] at h
      dsimp only at h
      cases hc : calls.isEmpty with
      | true =>
        rw [hc] at h
        simp only [if_true] at h
        rw [h5] at h
        dsimp only at h
        injection h with h2b
        subst h2b
        simp only [sumToolCalls, List.map_append, List.sum_append, List.map_cons,
          List.map_nil, List.sum_cons, List.sum_nil, List.length_nil] at hcnt ⊢
        omega
      | false =>
        rw [hc] at h
        simp only [Bool.false_eq_true, if_false] at h
        rw [runTools_ok hooks h3 h4 execTool calls [] 0] at h
        dsimp only at h
        rw [h5] at h
        dsimp only at h
        refine ih (tn + 1) _ _ r ?_ h
        simp only [sumToolCalls, List.map_append, List.sum_append, List.map_cons,
          List.map_nil, List.sum_cons, List.sum_nil, List.nil_append,
          List.length_map, Nat.zero_add] at hcnt ⊢
        omega

end AgentLoop

namespace AgentLoop

/-- C4 counterexample: with a hook configuration whose `on_tool_end`
raises on the turn's second tool call (`loop.py`: the exception is caught
by the outer handler after the first call's `tool_calls_count += 1` but
before `result.turns.append(turn)`), the run returns normally with
`stopped_reason = "error"`, `tool_calls_count = 1`, yet no recorded
turns, so the sum of tool calls over recorded turns is `0 ≠ 1`. -/
theorem C4_counterexample :
    (runWithHooks
        (fun _ => .reply none [⟨"c1", "t1", ""⟩, ⟨"c2", "t2", ""⟩])
        (fun _ _ => .ok "r")
        { defaultHooks with
          on_tool_end := fun n _ _ => if n = "t2" then .error "hook boom" else .ok () }
        5).toOption.map
      (fun r => (r.tool_calls_count, sumToolCalls r.turns, r.turns.length, r.stopped_reason))
      = some (1, 0, 0, "error") ∧ (1 : Nat) ≠ 0 := by decide

/-- C4 (amended): whenever `AgentLoop.run` returns an `AgentResult`
(i.e. no `on_error` hook re-raises out of the loop), `total_turns ≤
max_turns` and a `"completed"` stop ends with a recorded final turn
carrying no tool calls; `tool_calls_count` equals the sum of the lengths
of the `tool_calls` lists over recorded turns whenever no hook raises —
in particular for the default `AgentHooks()` — but a hook raising after
a tool call is counted and before its turn is recorded breaks that
equality, so it does not hold for arbitrary hooks. -/
theorem C4_theorem (llm : Nat → LLMResponse)
    (execTool : String → String → Except String String) (hooks : Hooks)
    (max_turns : Nat) (r : AgentResult)
    (h : runWithHooks llm execTool hooks max_turns = .ok r) :
    r.total_turns ≤ max_turns ∧
    (r.stopped_reason = "completed" →
      ∃ tr, r.turns.getLast? = some tr ∧ tr.is_final = true ∧ tr.tool_calls = []) ∧
    (NeverRaises hooks → r.tool_calls_count = sumToolCalls r.turns) := by
  unfold runWithHooks at h
  have hb := runAuxWithHooks_bound llm execTool hooks max_turns 0 [] 0 r h
  refine ⟨by have := hb.1; omega, hb.2, ?_⟩
  intro hnr
  exact runAuxWithHooks_count llm execTool hooks hnr max_turns 0 [] 0 r rfl h

/-- C4 witness: a default-hooks run that completes on turn 1. -/
theorem C4_witness :
    runWithHooks (fun _ => .reply (some "hi") []) (fun _ _ => .ok "") defaultHooks 3 =
      .ok ⟨"hi", [⟨1, some "hi", [], true⟩], 0, 1, "completed"⟩ ∧
    ((⟨"hi", [⟨1, some "hi", [], true⟩], 0, 1, "completed"⟩ : AgentResult).total_turns ≤ 3 ∧
     ((⟨"hi", [⟨1, some "hi", [], true⟩], 0, 1, "completed"⟩ : AgentResult).stopped_reason =
        "completed" →
       ∃ tr, (⟨"hi", [⟨1, some "hi", [], true⟩], 0, 1, "completed"⟩ :
          AgentResult).turns.getLast? = some tr ∧ tr.is_final = true ∧ tr.tool_calls = []) ∧
     (NeverRaises defaultHooks →
       (⟨"hi", [⟨1, some "hi", [], true⟩], 0, 1, "completed"⟩ :
          AgentResult).tool_calls_count =
         sumToolCalls (⟨"hi", [⟨1, some "hi", [], true⟩], 0, 1, "completed"⟩ :
          AgentResult).turns)) :=
  ⟨rfl, C4_theorem (fun _ => .reply (some "hi") []) (fun _ _ => .ok "") defaultHooks 3
    ⟨"hi", [⟨1, some "hi", [], true⟩], 0, 1, "completed"⟩ rfl⟩

end AgentLoop
